import Mathlib

/-!
Verification of the market normalization and filtering pipeline of the
Polymarket-Edge-Finder repository.  The Python scripts are shallowly
embedded: JSON payload values become the inductive type `JVal`, Python
dictionaries become association lists, fallible Python statements become
computations in `Except PyErr`, and machine floats are modelled by exact
rationals (the claims in question concern null-propagation, ordering of
checks, tally bookkeeping and deduplication keys, none of which depend on
rounding).

Stdlib collaborators that are not part of the repository are modelled as
explicit function parameters (`json.loads` as `loads`,
`datetime.fromisoformat` as `pISO`) or by injective stand-ins
(`datetime.fromtimestamp(t, utc).isoformat()` keeps the epoch value as the
instant, since that composite is injective on epochs); theorems quantify
over the parameters, so they hold for the real library functions.
-/

set_option autoImplicit false

namespace PolyEdge

/-- A JSON value as produced by Python's `json` module: the dynamic values
that flow through the pipeline.  Numbers are modelled by exact rationals. -/
inductive JVal where
  | null : JVal
  | bool (b : Bool) : JVal
  | num (q : ℚ) : JVal
  | str (s : String) : JVal
  | arr (xs : List JVal) : JVal
  | obj (kvs : List (String × JVal)) : JVal
deriving Repr

/-- The Python exception classes that the embedded code can raise or catch. -/
inductive PyErr where
  | typeError : PyErr
  | valueError : PyErr
  | attributeError : PyErr
  | keyError : PyErr
  | indexError : PyErr
deriving Repr, DecidableEq

mutual

/-- Boolean-valued structural equality on `JVal`. -/
def beqVal : JVal → JVal → Bool
  | .null, .null => true
  | .bool a, .bool b => a == b
  | .num a, .num b => a == b
  | .str a, .str b => a == b
  | .arr xs, .arr ys => beqValList xs ys
  | .obj xs, .obj ys => beqValObj xs ys
  | _, _ => false

/-- Structural equality on lists of `JVal`. -/
def beqValList : List JVal → List JVal → Bool
  | [], [] => true
  | x :: xs, y :: ys => beqVal x y && beqValList xs ys
  | _, _ => false

/-- Structural equality on association lists of `JVal`. -/
def beqValObj : List (String × JVal) → List (String × JVal) → Bool
  | [], [] => true
  | (k, v) :: xs, (l, w) :: ys => k == l && beqVal v w && beqValObj xs ys
  | _, _ => false

end

instance : BEq JVal := ⟨beqVal⟩


namespace JVal

/-- Python truthiness (`bool(v)`) for JSON-shaped values: `None`, `False`,
zero, the empty string, the empty list and the empty dict are falsy. -/
def truthy : JVal → Bool
  | .null => false
  | .bool b => b
  | .num q => q != 0
  | .str s => s != ""
  | .arr xs => !xs.isEmpty
  | .obj kvs => !kvs.isEmpty

end JVal

/-- `d.get(k)` on a Python dict, `None` when the key is absent.  Python dict
keys are unique, so first-match lookup on the association list is faithful. -/
def dictGet (kvs : List (String × JVal)) (k : String) : JVal :=
  (kvs.lookup k).getD .null

/-- `d.get(k, default)` on a Python dict. -/
def dictGetD (kvs : List (String × JVal)) (k : String) (d : JVal) : JVal :=
  (kvs.lookup k).getD d

/-- Python `len(v)`: defined for strings, lists and dicts; raises
`TypeError` for `None`, booleans and numbers. -/
def pyLen : JVal → Except PyErr Nat
  | .str s => .ok s.length
  | .arr xs => .ok xs.length
  | .obj kvs => .ok kvs.length
  | _ => .error .typeError

/-- First/second element access used for `clob_token_ids[0]` and
`clob_token_ids[1]`. -/
def listNth {α : Type} : List α → Nat → Option α
  | [], _ => none
  | x :: _, 0 => some x
  | _ :: xs, i + 1 => listNth xs i

/-- Python `v[i]` for a non-negative integer literal index: list indexing,
string indexing (yielding a one-character string), `KeyError` on a dict
whose keys are strings, `TypeError` otherwise. -/
def pyIndex (v : JVal) (i : Nat) : Except PyErr JVal :=
  match v with
  | .arr xs => match listNth xs i with
      | some x => .ok x
      | none => .error .indexError
  | .str s => match listNth s.toList i with
      | some c => .ok (.str (String.singleton c))
      | none => .error .indexError
  | .obj _ => .error .keyError
  | _ => .error .typeError

/-- Python `for x in v`: lists yield their elements, strings their
one-character substrings, dicts their keys; other values raise `TypeError`. -/
def pyIter : JVal → Except PyErr (List JVal)
  | .arr xs => .ok xs
  | .str s => .ok (s.toList.map fun c => .str (String.singleton c))
  | .obj kvs => .ok (kvs.map fun kv => .str kv.1)
  | _ => .error .typeError

/-- Stand-in for Python's textual rendering of a number (`str(3)` = `"3"`).
Integral values render exactly as Python does; for non-integral values the
rendering is an approximation of float repr, which is harmless here because
every property below applies the same stringification on both sides of the
comparison it appears in. -/
def numRepr (q : ℚ) : String :=
  if q.den = 1 then toString q.num else toString q

mutual

/-- Python `repr(v)` for JSON-shaped values (string escapes inside nested
strings are not reproduced; only lengths of renderings could matter below,
and no claim depends on the rendering of a nested structure). -/
def pyRepr : JVal → String
  | .null => "None"
  | .bool true => "True"
  | .bool false => "False"
  | .num q => numRepr q
  | .str s => "\x27" ++ s ++ "\x27"
  | .arr xs => "[" ++ String.intercalate ", " (pyReprList xs) ++ "]"
  | .obj kvs => "\x7b" ++ String.intercalate ", " (pyReprObj kvs) ++ "\x7d"

/-- Renderings of the elements of a list value. -/
def pyReprList : List JVal → List String
  | [] => []
  | x :: xs => pyRepr x :: pyReprList xs

/-- Renderings of the entries of a dict value. -/
def pyReprObj : List (String × JVal) → List String
  | [] => []
  | (k, v) :: kvs => ("\x27" ++ k ++ "\x27: " ++ pyRepr v) :: pyReprObj kvs

end

/-- Python `str(v)`: the value itself for strings, `repr`-style rendering
otherwise. -/
def pyStr : JVal → String
  | .str s => s
  | v => pyRepr v

/-- `len(str(v))`, the length test the scripts use to validate token ids. -/
def pyStrLen (v : JVal) : Nat :=
  (pyStr v).length

/-- Python `==` between JSON-shaped values.  Booleans compare numerically
with numbers (`True == 1`); values of unrelated types compare unequal.  The
embedded code only ever compares against scalar constants (`0`, `"0"`,
`""`, `"closed"`, `"yes"`, `"no"`), so the structural fallback used for two
containers is never exercised. -/
def pyEq : JVal → JVal → Bool
  | .null, .null => true
  | .bool a, .bool b => a == b
  | .bool a, .num q => (if a then (1 : ℚ) else 0) == q
  | .num q, .bool b => q == (if b then (1 : ℚ) else 0)
  | .num a, .num b => a == b
  | .str a, .str b => a == b
  | .arr xs, .arr ys => beqValList xs ys
  | .obj xs, .obj ys => beqValObj xs ys
  | _, _ => false

/-- Numeric value of the characters of a decimal digit string. -/
def digitsVal (cs : List Char) : Nat :=
  cs.foldl (fun a c => a * 10 + (c.toNat - 48)) 0

/-- Unsigned mantissa forms accepted by Python's `float`: `"12"`, `"12."`,
`"12.5"`, `".5"`. -/
def parseMantissa (cs : List Char) : Option ℚ :=
  let (ip, rest) := cs.span Char.isDigit
  match rest with
  | [] => if ip.isEmpty then none else some (digitsVal ip : ℚ)
  | '.' :: fp =>
      if fp.all Char.isDigit && (!ip.isEmpty || !fp.isEmpty) then
        some ((digitsVal ip : ℚ) + (digitsVal fp : ℚ) / ((10 : ℚ) ^ fp.length))
      else none
  | _ => none

/-- A signed decimal integer, for the exponent part of a float literal. -/
def parseSignedInt (cs : List Char) : Option ℤ :=
  match cs with
  | '-' :: ds => if !ds.isEmpty && ds.all Char.isDigit then some (-(digitsVal ds : ℤ)) else none
  | '+' :: ds => if !ds.isEmpty && ds.all Char.isDigit then some (digitsVal ds : ℤ) else none
  | ds => if !ds.isEmpty && ds.all Char.isDigit then some (digitsVal ds : ℤ) else none

/-- Split a float literal at its exponent marker, if any. -/
def splitExp (cs : List Char) : List Char × Option (List Char) :=
  match cs.span (fun c => c ≠ 'e' && c ≠ 'E') with
  | (m, []) => (m, none)
  | (m, _ :: rest) => (m, some rest)

/-- The strip of surrounding whitespace Python's `float` applies to a
string argument. -/
def stripChars (cs : List Char) : List Char :=
  ((cs.dropWhile Char.isWhitespace).reverse.dropWhile Char.isWhitespace).reverse

/-- Python `float(s)` on a string: optional surrounding whitespace, optional
sign, decimal mantissa, optional exponent.  (The exotic accepted forms
`"inf"`, `"nan"` and digit-group underscores are not modelled; no claim
below depends on them.) -/
def pyFloatOfString (s : String) : Option ℚ := do
  let cs := stripChars s.toList
  let (sgn, cs) : ℚ × List Char :=
    match cs with
    | '-' :: r => (-1, r)
    | '+' :: r => (1, r)
    | r => (1, r)
  let (m, e?) := splitExp cs
  let mant ← parseMantissa m
  let ex : ℤ ← match e? with
    | none => pure 0
    | some ecs => parseSignedInt ecs
  pure (sgn * mant * (10 : ℚ) ^ ex)

/-- Python `float(v)` on a dynamic value: numbers pass through, booleans
coerce, strings are parsed (`ValueError` on failure), everything else
raises `TypeError`. -/
def pyFloat : JVal → Except PyErr ℚ
  | .num q => .ok q
  | .bool b => .ok (if b then 1 else 0)
  | .str s =>
      match pyFloatOfString s with
      | some q => .ok q
      | none => .error .valueError
  | _ => .error .typeError

/-- Python `str.lower()`, modelled character-wise (ASCII case folding; the
scripts only compare the result against the ASCII constants `"closed"`,
`"yes"` and `"no"`). -/
def pyLower (s : String) : String :=
  ⟨s.toList.map Char.toLower⟩

/-- Python `a or b`: `a` when truthy, else `b`. -/
def pyOr (a b : JVal) : JVal :=
  if a.truthy then a else b

/-! ## Script 01: `extract_token_ids`

`json.loads` is a stdlib collaborator and is passed in as `loads`; `none`
models a `json.JSONDecodeError`.  Theorems about the extractor quantify
over `loads`. -/

/-- The `isinstance(v, str)` / `json.loads` normalization applied to
`clobTokenIds` and `tokens` in `extract_token_ids`: a string field is
decoded, with decode failure degrading to the empty list; any other value
passes through unchanged. -/
def normalizeJsonField (loads : String → Option JVal) (v : JVal) : JVal :=
  match v with
  | .str s => (loads s).getD (.arr [])
  | v => v

/-- The validity test `x and len(str(x)) > 10` applied to each token-id
candidate in the scripts of this repository. -/
def tokenIdValid (v : JVal) : Bool :=
  v.truthy && decide (pyStrLen v > 10)

/-- One iteration of the `for token in tokens` loop of
`extract_token_ids`: reads the `outcome` label (defaulting to `""`, and
raising `AttributeError` when `token` is not a dict or the label does not
support `.lower()`), reads `token_id` falling back to `tokenId`, and
assigns the candidate to the matching side when it passes the validity
check. -/
def tokenLoopStep (st : Option JVal × Option JVal) (token : JVal) :
    Except PyErr (Option JVal × Option JVal) :=
  match token with
  | .obj kvs =>
      match dictGetD kvs "outcome" (.str "") with
      | .str o =>
          let outcome := pyLower o
          let token_id := pyOr (dictGet kvs "token_id") (dictGet kvs "tokenId")
          if outcome == "yes" && tokenIdValid token_id then
            .ok (some token_id, st.2)
          else if outcome == "no" && tokenIdValid token_id then
            .ok (st.1, some token_id)
          else
            .ok st
      | _ => .error .attributeError
  | _ => .error .attributeError

/-- The `clobTokenIds` branch of `extract_token_ids` (the
`if clob_token_ids and len(clob_token_ids) >= 2` block): `some (yes, no)`
when the normalized pair field yields two validated candidates, `none`
when the branch falls through to the `tokens` field (also when only one of
the two candidates is valid: both are then discarded). -/
def clobCandidates (clob : JVal) : Except PyErr (Option (JVal × JVal)) :=
  if clob.truthy then do
    let n ← pyLen clob
    if n ≥ 2 then do
      let y ← pyIndex clob 0
      let no ← pyIndex clob 1
      if tokenIdValid y && tokenIdValid no then
        pure (some (y, no))
      else
        pure none
    else
      pure none
  else
    pure none

/-- `extract_token_ids` from `01_discover_markets.py`: try the
`clobTokenIds` pair field first (JSON-decoding it when it arrives as a
string), validate both candidates, and otherwise fall back to the tagged
`tokens` field. -/
def extract_token_ids (loads : String → Option JVal)
    (market : List (String × JVal)) :
    Except PyErr (Option JVal × Option JVal) := do
  let clob := normalizeJsonField loads (dictGetD market "clobTokenIds" (.arr []))
  match ← clobCandidates clob with
  | some (y, no) => return (some y, some no)
  | none =>
      let tokens := normalizeJsonField loads (dictGetD market "tokens" (.arr []))
      let elems ← pyIter tokens
      elems.foldlM tokenLoopStep (none, none)

/-! ## Script 02 / 03: `filter_markets`

`datetime.fromisoformat` (applied after `replace('Z', '+00:00')`) is a
stdlib collaborator, modelled by a parameter `pISO : String → Option ℤ`
mapping a string to the UTC instant of the aware datetime it parses to.
`none` covers both a parse failure (`ValueError`) and the case of a naive
parse result, whose comparison against `datetime.now(timezone.utc)` raises
`TypeError`; the source catches exactly these two exception classes around
this check and falls through without rejecting.  `now` is the instant the
run compares against. -/

/-- The three rejection-tally buckets of `filter_markets`. -/
inductive Bucket where
  | closed : Bucket
  | no_token_ids : Bucket
  | no_liquidity : Bucket
deriving Repr, DecidableEq

/-- The `skip_counts` dictionary of `filter_markets`. -/
structure SkipCounts where
  closed : Nat
  no_token_ids : Nat
  no_liquidity : Nat
deriving Repr, DecidableEq

/-- Increment the tally for one bucket. -/
def SkipCounts.bump (c : SkipCounts) : Bucket → SkipCounts
  | .closed => { c with closed := c.closed + 1 }
  | .no_token_ids => { c with no_token_ids := c.no_token_ids + 1 }
  | .no_liquidity => { c with no_liquidity := c.no_liquidity + 1 }

/-- The zero tally `filter_markets` starts from. -/
def SkipCounts.zero : SkipCounts := ⟨0, 0, 0⟩

/-- Check 1 of both filters (`state = market.get('state', '').lower()`,
`closed = market.get('closed', False)`, `if state == 'closed' or closed`):
`AttributeError` when the state field does not support `.lower()`. -/
def stateClosed (kvs : List (String × JVal)) : Except PyErr Bool :=
  match dictGetD kvs "state" (.str "") with
  | .str s =>
      .ok (pyLower s == "closed" || (dictGetD kvs "closed" (.bool false)).truthy)
  | _ => .error .attributeError

/-- Checks 2 and 3 of `filter_markets` in `02_collect_live_prices.py`:
either token id missing/falsy, or either stringification shorter than 10
characters.  Both branches bump the same `no_token_ids` tally. -/
def tokenIdsInvalid (kvs : List (String × JVal)) : Bool :=
  !(dictGet kvs "yes_token_id").truthy || !(dictGet kvs "no_token_id").truthy ||
    decide (pyStrLen (dictGet kvs "yes_token_id") < 10) ||
    decide (pyStrLen (dictGet kvs "no_token_id") < 10)

/-- Check 2 of `filter_markets` in `03_collect_historical_prices.py`:
presence only (`not yes or not no or yes == '' or no == ''`), with no
length validation. -/
def tokenIdsMissingHist (kvs : List (String × JVal)) : Bool :=
  !(dictGet kvs "yes_token_id").truthy || !(dictGet kvs "no_token_id").truthy ||
    pyEq (dictGet kvs "yes_token_id") (.str "") ||
    pyEq (dictGet kvs "no_token_id") (.str "")

/-- `s.replace(c, rep)` for a one-character pattern — the scripts' only
use of `str.replace` is `.replace('Z', '+00:00')`. -/
def replaceChar (s : String) (c : Char) (rep : String) : String :=
  ⟨s.toList.foldr (fun ch acc => if ch = c then rep.toList ++ acc else ch :: acc) []⟩

/-- Check 4 of `filter_markets` (02): the end time, taken from
`ending_time` or else `end_date_iso`, is a string that (after the
`Z → +00:00` substitution) parses to an aware instant strictly before
`now`.  A truthy non-string raises `AttributeError` at `.replace`; a parse
failure (or a naive result, whose comparison raises the caught
`TypeError`) fails open. -/
def marketEnded (pISO : String → Option ℤ) (now : ℤ)
    (kvs : List (String × JVal)) : Except PyErr Bool :=
  let ending_time := pyOr (dictGet kvs "ending_time") (dictGet kvs "end_date_iso")
  if ending_time.truthy then
    match ending_time with
    | .str s =>
        match pISO (replaceChar s 'Z' "+00:00") with
        | some t => .ok (decide (t < now))
        | none => .ok false
    | _ => .error .attributeError
  else
    .ok false

/-- Check 5 of `filter_markets` (02): liquidity falsy, or failing the
`float` conversion, or converting to exactly zero.  All three branches
bump the same `no_liquidity` tally. -/
def liquidityInvalid (kvs : List (String × JVal)) : Bool :=
  !(dictGet kvs "liquidity").truthy ||
    (match pyFloat (dictGet kvs "liquidity") with
     | .ok q => q == 0
     | .error _ => true)

/-- Check 3 of `filter_markets` (03): the literal guards
(`is None`, `== 0`, `== "0"`, `== ''`) followed by the same `float`
conversion test; one `no_liquidity` bucket for all of them. -/
def liquidityInvalidHist (kvs : List (String × JVal)) : Bool :=
  (match dictGet kvs "liquidity" with
   | .null => true
   | v => pyEq v (.num 0) || pyEq v (.str "0") || pyEq v (.str "")) ||
    (match pyFloat (dictGet kvs "liquidity") with
     | .ok q => q == 0
     | .error _ => true)

/-- The per-record body of the `for market in markets` loop of
`filter_markets` in `02_collect_live_prices.py`: the checks run in source
order and the first failing one names the bucket; `none` means the record
is admitted. -/
def check_market (pISO : String → Option ℤ) (now : ℤ) (market : JVal) :
    Except PyErr (Option Bucket) :=
  match market with
  | .obj kvs => do
      let sc ← stateClosed kvs
      if sc then return (some .closed) else
      if tokenIdsInvalid kvs then return (some .no_token_ids) else
      let ended ← marketEnded pISO now kvs
      if ended then return (some .closed) else
      if liquidityInvalid kvs then return (some .no_liquidity) else
      return none
  | _ => .error .attributeError

/-- The per-record body of `filter_markets` in
`03_collect_historical_prices.py`: the same state check, a presence-only
token-id check (no length validation), and the liquidity check; there is
no end-date check in this version. -/
def check_market_hist (market : JVal) : Except PyErr (Option Bucket) :=
  match market with
  | .obj kvs => do
      let sc ← stateClosed kvs
      if sc then return (some .closed) else
      if tokenIdsMissingHist kvs then return (some .no_token_ids) else
      if liquidityInvalidHist kvs then return (some .no_liquidity) else
      return none
  | _ => .error .attributeError

/-- The accumulation loop shared by both versions of `filter_markets`:
admitted records are appended unmodified, skipped records bump their
bucket's tally, and an exception raised by a check propagates. -/
def filterLoop (check : JVal → Except PyErr (Option Bucket))
    (filtered : List JVal) (c : SkipCounts) :
    List JVal → Except PyErr (List JVal × SkipCounts)
  | [] => .ok (filtered, c)
  | m :: rest =>
      match check m with
      | .error e => .error e
      | .ok (some b) => filterLoop check filtered (c.bump b) rest
      | .ok none => filterLoop check (filtered ++ [m]) c rest

/-- `filter_markets` from `02_collect_live_prices.py`. -/
def filter_markets (pISO : String → Option ℤ) (now : ℤ) (markets : List JVal) :
    Except PyErr (List JVal × SkipCounts) :=
  filterLoop (check_market pISO now) [] .zero markets

/-- `filter_markets` from `03_collect_historical_prices.py`. -/
def filter_markets_hist (markets : List JVal) :
    Except PyErr (List JVal × SkipCounts) :=
  filterLoop check_market_hist [] .zero markets

/-! ## Script 02: `parse_orderbook` -/

/-- The list comprehension
`[float(bid.get('price')) for bid in bids if bid.get('price') is not None]`,
evaluated left to right: an entry that is not a dict raises
`AttributeError`, an entry whose present price fails `float` raises
`ValueError`/`TypeError`, and an entry with a missing or `None` price is
passed over. -/
def collectPrices : List JVal → Except PyErr (List ℚ)
  | [] => .ok []
  | b :: rest =>
      match b with
      | .obj kvs =>
          let v := dictGet kvs "price"
          if beqVal v .null then collectPrices rest
          else do
            let q ← pyFloat v
            let qs ← collectPrices rest
            pure (q :: qs)
      | _ => .error .attributeError

/-- One side of `parse_orderbook`: the `if bids:` guard, the comprehension
wrapped in `try`, the non-emptiness test and the `max`/`min`.  The `except`
clause catches exactly `ValueError` and `TypeError`, leaving the side's
best at `None`; an `AttributeError` propagates. -/
def sideBest (side : JVal) (isMax : Bool) : Except PyErr (Option ℚ) :=
  if !side.truthy then .ok none
  else
    match (do
        let elems ← pyIter side
        collectPrices elems : Except PyErr (List ℚ)) with
    | .ok [] => .ok none
    | .ok (q :: qs) => .ok (some (qs.foldl (if isMax then max else min) q))
    | .error .valueError => .ok none
    | .error .typeError => .ok none
    | .error e => .error e

/-- The result record of `parse_orderbook`. -/
structure OrderbookSummary where
  best_bid : Option ℚ
  best_ask : Option ℚ
  mid_price : Option ℚ
  spread : Option ℚ
deriving Repr, DecidableEq

/-- The final result-assembly block of `parse_orderbook`: the four `result`
fields start as `None`, the two bests are filled in, and `mid_price` and
`spread` are computed only when both bests are present. -/
def mkSummary (bb ba : Option ℚ) : OrderbookSummary :=
  match bb, ba with
  | some b, some a => ⟨some b, some a, some ((b + a) / 2), some (a - b)⟩
  | _, _ => ⟨bb, ba, none, none⟩

/-- `parse_orderbook` from `02_collect_live_prices.py`. -/
def parse_orderbook (orderbook : JVal) : Except PyErr OrderbookSummary :=
  if !orderbook.truthy then .ok ⟨none, none, none, none⟩
  else
    match orderbook with
    | .obj kvs => do
        let best_bid ← sideBest (dictGetD kvs "bids" (.arr [])) true
        let best_ask ← sideBest (dictGetD kvs "asks" (.arr [])) false
        Except.ok (mkSummary best_bid best_ask)
    | _ => .error .attributeError

/-- Spec-side definition (from the spec's words, for comparison with
`parse_orderbook`): the prices of exactly those entries whose price is
present and parses, each malformed entry excluded individually. -/
def spec_side_prices (entries : List JVal) : List ℚ :=
  entries.filterMap fun e =>
    match e with
    | .obj kvs =>
        let v := dictGet kvs "price"
        if beqVal v .null then none else (pyFloat v).toOption
    | _ => none

/-- The entries on which the comprehension of `parse_orderbook` moves on to
the next entry: a dict whose price is absent, `None`, or converts. -/
def entryOk (e : JVal) : Bool :=
  match e with
  | .obj kvs =>
      let v := dictGet kvs "price"
      beqVal v .null || (pyFloat v).toOption.isSome
  | _ => false

/-- Spec-side best bid: maximum of the individually parsed prices. -/
def spec_best_bid (entries : List JVal) : Option ℚ :=
  (spec_side_prices entries).max?

/-- Spec-side best ask: minimum of the individually parsed prices. -/
def spec_best_ask (entries : List JVal) : Option ℚ :=
  (spec_side_prices entries).min?

/-! ## Script 05: ingestion reconcilers

The store tables are modelled as lists of rows in insertion order; the
`SELECT ... WHERE`-based existence checks become searches over those
lists. -/

/-- A row of the `live_prices` table (the auto-increment `id` column is
not represented; no logic reads it). -/
structure LiveRow where
  market_id : JVal
  timestamp : JVal
  question : JVal
  yes_token_id : JVal
  no_token_id : JVal
  yes_best_bid : JVal
  yes_best_ask : JVal
  yes_mid_price : JVal
  yes_spread : JVal
  no_best_bid : JVal
  no_best_ask : JVal
  no_mid_price : JVal
  no_spread : JVal
deriving Repr

/-- The row `ingest_live_prices` would insert for one snapshot dict. -/
def liveRowOf (price : List (String × JVal)) : LiveRow where
  market_id := dictGet price "market_id"
  timestamp := dictGet price "timestamp"
  question := dictGet price "question"
  yes_token_id := dictGet price "yes_token_id"
  no_token_id := dictGet price "no_token_id"
  yes_best_bid := dictGet price "yes_best_bid"
  yes_best_ask := dictGet price "yes_best_ask"
  yes_mid_price := dictGet price "yes_mid_price"
  yes_spread := dictGet price "yes_spread"
  no_best_bid := dictGet price "no_best_bid"
  no_best_ask := dictGet price "no_best_ask"
  no_mid_price := dictGet price "no_mid_price"
  no_spread := dictGet price "no_spread"

/-- The existence check
`SELECT id FROM live_prices WHERE market_id = ? AND timestamp = ?`. -/
def liveKeyExists (s : List LiveRow) (mid ts : JVal) : Bool :=
  s.any fun r => beqVal r.market_id mid && beqVal r.timestamp ts

/-- The `for price in live_prices_data` loop of `ingest_live_prices`:
snapshots without a truthy `market_id` and `timestamp` are passed over,
snapshots whose (market identifier, timestamp) pair already has a row are
counted as skipped, and the rest are appended. -/
def ingestLiveLoop (s : List LiveRow) (ins skip : Nat) :
    List (List (String × JVal)) → List LiveRow × Nat × Nat
  | [] => (s, ins, skip)
  | price :: rest =>
      let market_id := dictGet price "market_id"
      let timestamp := dictGet price "timestamp"
      if !market_id.truthy || !timestamp.truthy then
        ingestLiveLoop s ins skip rest
      else if liveKeyExists s market_id timestamp then
        ingestLiveLoop s ins (skip + 1) rest
      else
        ingestLiveLoop (s ++ [liveRowOf price]) (ins + 1) skip rest

/-- `ingest_live_prices` from `05_ingest_data.py`, returning the updated
table together with the inserted and skipped counts. -/
def ingest_live_prices (data : List (List (String × JVal)))
    (s : List LiveRow) : List LiveRow × Nat × Nat :=
  ingestLiveLoop s 0 0 data

/-- A row of the `price_history` table.  The stored timestamp is
`datetime.fromtimestamp(t, timezone.utc).isoformat()`; that composite is
injective on epoch values, so the instant is modelled by the epoch value
itself. -/
structure HistRow where
  market_id : String
  question : JVal
  yes_token_id : JVal
  no_token_id : JVal
  side : String
  price : JVal
  timestamp : ℚ
deriving Repr

/-- The existence check
`SELECT id FROM price_history WHERE market_id = ? AND side = ? AND timestamp = ?`. -/
def histKeyExists (s : List HistRow) (mid side : String) (ts : ℚ) : Bool :=
  s.any fun r => r.market_id == mid && r.side == side && r.timestamp == ts

/-- Store plus the two counters threaded through
`ingest_historical_prices`. -/
structure HistSt where
  store : List HistRow
  ins : Nat
  skip : Nat
deriving Repr

/-- `datetime.fromtimestamp(t, timezone.utc)`: booleans coerce like ints,
anything non-numeric raises `TypeError`.  The produced instant is the
epoch value itself (the ISO rendering the script stores is injective on
epochs, so deduplication behaves identically). -/
def epochOf : JVal → Except PyErr ℚ
  | .num q => .ok q
  | .bool b => .ok (if b then 1 else 0)
  | _ => .error .typeError

/-- The per-point body of the `for point in history_points` loops of
`ingest_historical_prices`: a point with a missing or `None` `t` or `p`
is dropped silently; `datetime.fromtimestamp` raises `TypeError` on a
non-numeric epoch; otherwise the point is inserted exactly when its
(market identifier, side, instant) triple has no row yet. -/
def histPointStep (mid : String) (question yes_tid no_tid : JVal)
    (side : String) (st : HistSt) (point : JVal) : Except PyErr HistSt :=
  match point with
  | .obj kvs =>
      let t := dictGet kvs "t"
      let p := dictGet kvs "p"
      if beqVal t .null || beqVal p .null then .ok st
      else do
        let ts ← epochOf t
        if histKeyExists st.store mid side ts then
          .ok ⟨st.store, st.ins, st.skip + 1⟩
        else
          .ok ⟨st.store ++ [⟨mid, question, yes_tid, no_tid, side, p, ts⟩],
            st.ins + 1, st.skip⟩
  | _ => .error .attributeError

/-- One side of one market in `ingest_historical_prices`: the series is
processed only when it is a truthy dict whose `history` field is a list;
anything else is passed over without error. -/
def histSideRun (mid : String) (question yes_tid no_tid : JVal)
    (side : String) (histField : JVal) (st : HistSt) : Except PyErr HistSt :=
  match histField with
  | .obj kvs =>
      if kvs.isEmpty then .ok st
      else
        match dictGetD kvs "history" (.arr []) with
        | .arr points => points.foldlM (histPointStep mid question yes_tid no_tid side) st
        | _ => .ok st
  | _ => .ok st

/-- The per-market body of `ingest_historical_prices`: falsy histories are
passed over, the header fields are read, then the YES and NO series are
processed in that order. -/
def histMarketStep (st : HistSt) (entry : String × JVal) : Except PyErr HistSt :=
  let market_id := entry.1
  let market_history := entry.2
  if !market_history.truthy then .ok st
  else
    match market_history with
    | .obj kvs => do
        let question := dictGet kvs "question"
        let yes_tid := dictGet kvs "yes_token_id"
        let no_tid := dictGet kvs "no_token_id"
        let st ← histSideRun market_id question yes_tid no_tid "YES"
          (dictGet kvs "yes_history") st
        histSideRun market_id question yes_tid no_tid "NO"
          (dictGet kvs "no_history") st
    | _ => .error .attributeError

/-- `ingest_historical_prices` from `05_ingest_data.py`: the nested
payload (a dict keyed by market identifier, iterated in insertion order)
is flattened into the `price_history` table. -/
def ingest_historical_prices (data : List (String × JVal))
    (s : List HistRow) : Except PyErr HistSt :=
  data.foldlM histMarketStep ⟨s, 0, 0⟩

/-- The guard of `ingest_live_prices`: a snapshot is processed only when
both key fields are truthy. -/
def validLive (price : List (String × JVal)) : Bool :=
  (dictGet price "market_id").truthy && (dictGet price "timestamp").truthy

/-- A history point that clears the missing-field guard and whose epoch
converts: exactly the points that reach the dedup check. -/
def validHistPoint (pt : JVal) : Bool :=
  match pt with
  | .obj kvs =>
      !(beqVal (dictGet kvs "t") .null || beqVal (dictGet kvs "p") .null) &&
        (epochOf (dictGet kvs "t")).toOption.isSome
  | _ => false

/-- A history point the loop can process without raising. -/
def processablePoint (pt : JVal) : Bool :=
  match pt with
  | .obj kvs =>
      (beqVal (dictGet kvs "t") .null || beqVal (dictGet kvs "p") .null) ||
        (epochOf (dictGet kvs "t")).toOption.isSome
  | _ => false

/-- The instant a valid point deduplicates on. -/
def pointEpoch (pt : JVal) : ℚ :=
  match pt with
  | .obj kvs => ((epochOf (dictGet kvs "t")).toOption).getD 0
  | _ => 0

/-- The point list a side actually iterates: empty whenever the series is
not a truthy dict with a list-valued `history` field. -/
def sidePoints (hf : JVal) : List JVal :=
  match hf with
  | .obj kvs =>
      if kvs.isEmpty then []
      else
        match dictGetD kvs "history" (.arr []) with
        | .arr points => points
        | _ => []
  | _ => []

/-- The YES-side point list of one market entry of the payload. -/
def entryYesPoints (mh : JVal) : List JVal :=
  if mh.truthy then
    match mh with
    | .obj kvs => sidePoints (dictGet kvs "yes_history")
    | _ => []
  else []

/-- The NO-side point list of one market entry of the payload. -/
def entryNoPoints (mh : JVal) : List JVal :=
  if mh.truthy then
    match mh with
    | .obj kvs => sidePoints (dictGet kvs "no_history")
    | _ => []
  else []

/-- A market entry the loop can read without raising `AttributeError`:
falsy, or a dict. -/
def processableEntry (mh : JVal) : Bool :=
  if mh.truthy then
    match mh with
    | .obj _ => true
    | _ => false
  else true

/-! ## Helper lemmas -/

theorem exceptBind_ok {α β : Type} (a : α) (f : α → Except PyErr β) :
    (Except.ok a >>= f) = f a := rfl

theorem exceptBind_error {α β : Type} (e : PyErr) (f : α → Except PyErr β) :
    ((Except.error e : Except PyErr α) >>= f) = Except.error e := rfl

theorem exceptPure {α : Type} (a : α) : (pure a : Except PyErr α) = Except.ok a := rfl

mutual

theorem beqVal_refl : ∀ v : JVal, beqVal v v = true
  | .null => rfl
  | .bool b => by simp [beqVal]
  | .num q => by simp [beqVal]
  | .str s => by simp [beqVal]
  | .arr xs => beqValList_refl xs
  | .obj kvs => beqValObj_refl kvs

theorem beqValList_refl : ∀ xs : List JVal, beqValList xs xs = true
  | [] => rfl
  | x :: xs => by simp [beqValList, beqVal_refl x, beqValList_refl xs]

theorem beqValObj_refl : ∀ kvs : List (String × JVal), beqValObj kvs kvs = true
  | [] => rfl
  | (k, v) :: kvs => by simp [beqValObj, beqVal_refl v, beqValObj_refl kvs]

end

theorem beqVal_null_iff (v : JVal) : beqVal v .null = true ↔ v = .null := by
  cases v <;> simp [beqVal]

theorem pyFloat_error_classes (v : JVal) (e : PyErr) (h : pyFloat v = .error e) :
    e = .valueError ∨ e = .typeError := by
  cases v <;> simp [pyFloat] at h <;> try (exact Or.inr h.symm)
  · rename_i s
    rcases hp : pyFloatOfString s with _ | q <;> rw [hp] at h
    · exact Or.inl (Except.error.inj h).symm
    · exact absurd h (by simp)

theorem parse_orderbook_shape (book : JVal) (r : OrderbookSummary)
    (h : parse_orderbook book = .ok r) :
    r = ⟨none, none, none, none⟩ ∨ ∃ bb ba, r = mkSummary bb ba := by
  cases book with
  | obj kvs =>
      by_cases ht : (JVal.obj kvs).truthy
      · simp only [parse_orderbook, ht, Bool.not_true, Bool.false_eq_true, if_false] at h
        cases e1 : sideBest (dictGetD kvs "bids" (.arr [])) true with
        | ok bb =>
            cases e2 : sideBest (dictGetD kvs "asks" (.arr [])) false with
            | ok ba =>
                rw [e1, e2] at h
                simp only [exceptBind_ok] at h
                exact Or.inr ⟨bb, ba, (Except.ok.inj h).symm⟩
            | error e =>
                rw [e1, e2] at h
                simp only [exceptBind_ok, exceptBind_error] at h
                exact Except.noConfusion h
        | error e =>
            rw [e1] at h
            simp only [exceptBind_error] at h
            exact Except.noConfusion h
      · simp [parse_orderbook, ht] at h
        exact Or.inl h.symm
  | null => exact Or.inl (Except.ok.inj h).symm
  | bool b =>
      cases b
      · exact Or.inl (Except.ok.inj h).symm
      · simp [parse_orderbook, JVal.truthy] at h
  | num q =>
      by_cases hq : q = 0 <;> simp [parse_orderbook, JVal.truthy, hq] at h
      exact Or.inl h.symm
  | str s =>
      by_cases hs : s = "" <;> simp [parse_orderbook, JVal.truthy, hs] at h
      exact Or.inl h.symm
  | arr xs =>
      cases xs <;> simp [parse_orderbook, JVal.truthy] at h
      exact Or.inl h.symm

theorem collectPrices_wellformed (l : List JVal) (h : l.all entryOk = true) :
    collectPrices l = .ok (spec_side_prices l) := by
  induction l with
  | nil => rfl
  | cons e rest ih =>
      rw [List.all_cons, Bool.and_eq_true] at h
      obtain ⟨he, hrest⟩ := h
      cases e with
      | obj kvs =>
          by_cases hn : beqVal (dictGet kvs "price") .null
          · simp [collectPrices, spec_side_prices, hn, ih hrest]
          · simp only [entryOk, hn, Bool.false_or, Option.isSome_iff_exists] at he
            obtain ⟨q, hq⟩ := he
            have hq' : pyFloat (dictGet kvs "price") = .ok q := by
              cases hf : pyFloat (dictGet kvs "price") <;> rw [hf] at hq <;>
                simp [Except.toOption] at hq
              rw [hq]
            simp [collectPrices, spec_side_prices, hn, hq', exceptBind_ok, ih hrest,
              Except.toOption]
      | null => simp [entryOk] at he
      | bool b => simp [entryOk] at he
      | num q => simp [entryOk] at he
      | str s => simp [entryOk] at he
      | arr xs => simp [entryOk] at he

theorem collectPrices_fails (l : List JVal)
    (hobj : ∀ e ∈ l, ∃ kvs, e = JVal.obj kvs) (hbad : l.all entryOk = false) :
    ∃ e', collectPrices l = .error e' ∧ (e' = .valueError ∨ e' = .typeError) := by
  induction l with
  | nil => simp at hbad
  | cons e rest ih =>
      obtain ⟨kvs, rfl⟩ := hobj e (by simp)
      rw [List.all_cons, Bool.and_eq_false_iff] at hbad
      by_cases hn : beqVal (dictGet kvs "price") .null
      · have hr : rest.all entryOk = false := by
          rcases hbad with hb | hb
          · simp [entryOk, hn] at hb
          · exact hb
        obtain ⟨e', he', hcl⟩ := ih (fun x hx => hobj x (by simp [hx])) hr
        exact ⟨e', by simp [collectPrices, hn, he'], hcl⟩
      · cases hq : pyFloat (dictGet kvs "price") with
        | ok q =>
            have hr : rest.all entryOk = false := by
              rcases hbad with hb | hb
              · simp [entryOk, hn, hq, Except.toOption] at hb
              · exact hb
            obtain ⟨e', he', hcl⟩ := ih (fun x hx => hobj x (by simp [hx])) hr
            refine ⟨e', ?_, hcl⟩
            simp [collectPrices, hn, hq, exceptBind_ok, he']
        | error e2 =>
            refine ⟨e2, ?_, pyFloat_error_classes _ _ hq⟩
            simp [collectPrices, hn, hq, exceptBind_error]

theorem sideBest_wellformed (l : List JVal) (h : l.all entryOk = true) :
    sideBest (.arr l) true = .ok (spec_best_bid l) ∧
    sideBest (.arr l) false = .ok (spec_best_ask l) := by
  have hc := collectPrices_wellformed l h
  cases l with
  | nil => exact ⟨rfl, rfl⟩
  | cons e rest =>
      have ht : (JVal.arr (e :: rest)).truthy = true := by simp [JVal.truthy]
      constructor
      · simp only [sideBest, ht, Bool.not_true, Bool.false_eq_true, if_false, pyIter,
          exceptBind_ok, hc, spec_best_bid]
        cases hsp : spec_side_prices (e :: rest) with
        | nil => rfl
        | cons q qs => rfl
      · simp only [sideBest, ht, Bool.not_true, Bool.false_eq_true, if_false, pyIter,
          exceptBind_ok, hc, spec_best_ask]
        cases hsp : spec_side_prices (e :: rest) with
        | nil => rfl
        | cons q qs => rfl

theorem filterLoop_admitted (check : JVal → Except PyErr (Option Bucket)) :
    ∀ (ms fs0 : List JVal) (c0 : SkipCounts) (fs : List JVal) (c : SkipCounts),
    filterLoop check fs0 c0 ms = .ok (fs, c) →
    ∀ m ∈ fs, m ∈ fs0 ∨ check m = .ok none := by
  intro ms
  induction ms with
  | nil =>
      intro fs0 c0 fs c h m hm
      simp only [filterLoop] at h
      obtain ⟨h1, -⟩ := Prod.mk.injEq .. ▸ Except.ok.inj h
      exact Or.inl (h1 ▸ hm)
  | cons m0 rest ih =>
      intro fs0 c0 fs c h m hm
      cases hc : check m0 with
      | error e =>
          rw [filterLoop, hc] at h
          exact Except.noConfusion h
      | ok ob =>
          rw [filterLoop, hc] at h
          cases ob with
          | some b => exact ih fs0 (c0.bump b) fs c h m hm
          | none =>
              rcases ih (fs0 ++ [m0]) c0 fs c h m hm with h0 | h0
              · rcases List.mem_append.mp h0 with h1 | h1
                · exact Or.inl h1
                · rcases List.mem_singleton.mp h1 with rfl
                  exact Or.inr hc
              · exact Or.inr h0

theorem filterLoop_all_admitted (check : JVal → Except PyErr (Option Bucket)) :
    ∀ (l fs0 : List JVal) (c0 : SkipCounts),
    (∀ m ∈ l, check m = .ok none) →
    filterLoop check fs0 c0 l = .ok (fs0 ++ l, c0) := by
  intro l
  induction l with
  | nil => intro fs0 c0 _; simp [filterLoop]
  | cons m0 rest ih =>
      intro fs0 c0 hall
      rw [filterLoop, hall m0 (by simp)]
      rw [ih (fs0 ++ [m0]) c0 (fun m hm => hall m (by simp [hm]))]
      simp

theorem check_market_admitted (pISO : String → Option ℤ) (now : ℤ) (m : JVal)
    (h : check_market pISO now m = .ok none) :
    ∃ kvs, m = JVal.obj kvs ∧ tokenIdsInvalid kvs = false := by
  cases m with
  | obj kvs =>
      refine ⟨kvs, rfl, ?_⟩
      cases hsc : stateClosed kvs with
      | error e => rw [check_market, hsc] at h; exact Except.noConfusion h
      | ok sc =>
          rw [check_market, hsc] at h
          simp only [exceptBind_ok] at h
          cases sc with
          | true => exact Option.noConfusion (Except.ok.inj h)
          | false =>
              simp only [Bool.false_eq_true, if_false] at h
              by_cases hti : tokenIdsInvalid kvs
              · rw [if_pos hti] at h
                exact Option.noConfusion (Except.ok.inj h)
              · exact Bool.not_eq_true _ ▸ hti
  | null => simp [check_market] at h
  | bool b => simp [check_market] at h
  | num q => simp [check_market] at h
  | str s => simp [check_market] at h
  | arr xs => simp [check_market] at h

theorem check_market_hist_admitted (m : JVal)
    (h : check_market_hist m = .ok none) :
    ∃ kvs, m = JVal.obj kvs ∧ tokenIdsMissingHist kvs = false := by
  cases m with
  | obj kvs =>
      refine ⟨kvs, rfl, ?_⟩
      cases hsc : stateClosed kvs with
      | error e => rw [check_market_hist, hsc] at h; exact Except.noConfusion h
      | ok sc =>
          rw [check_market_hist, hsc] at h
          simp only [exceptBind_ok] at h
          cases sc with
          | true => exact Option.noConfusion (Except.ok.inj h)
          | false =>
              simp only [Bool.false_eq_true, if_false] at h
              by_cases hti : tokenIdsMissingHist kvs
              · rw [if_pos hti] at h
                exact Option.noConfusion (Except.ok.inj h)
              · exact Bool.not_eq_true _ ▸ hti
  | null => simp [check_market_hist] at h
  | bool b => simp [check_market_hist] at h
  | num q => simp [check_market_hist] at h
  | str s => simp [check_market_hist] at h
  | arr xs => simp [check_market_hist] at h

theorem foldlM_consE {σ α : Type} (f : σ → α → Except PyErr σ) (b : σ)
    (a : α) (l : List α) :
    (a :: l).foldlM f b = f b a >>= fun b' => l.foldlM f b' := rfl

theorem foldlM_appendE {σ α : Type} (f : σ → α → Except PyErr σ) :
    ∀ (l1 : List α) (b : σ) (l2 : List α),
    (l1 ++ l2).foldlM f b = l1.foldlM f b >>= fun b' => l2.foldlM f b' := by
  intro l1
  induction l1 with
  | nil => intro b l2; rfl
  | cons a l ih =>
      intro b l2
      rw [List.cons_append, foldlM_consE, foldlM_consE]
      cases f b a with
      | ok b' => simp only [exceptBind_ok, ih]
      | error e => simp only [exceptBind_error]

/-- The two assignments of the token loop only ever store a candidate that
passed the `len(str(...)) > 10` validity check. -/
theorem tokenLoopStep_inv (st st' : Option JVal × Option JVal) (t : JVal)
    (h : tokenLoopStep st t = .ok st')
    (hst : (∀ v, st.1 = some v → 10 < pyStrLen v) ∧
           (∀ v, st.2 = some v → 10 < pyStrLen v)) :
    (∀ v, st'.1 = some v → 10 < pyStrLen v) ∧
    (∀ v, st'.2 = some v → 10 < pyStrLen v) := by
  cases t with
  | obj kvs =>
      cases ho : dictGetD kvs "outcome" (.str "") with
      | str o =>
          simp only [tokenLoopStep, ho] at h
          by_cases h1 : (pyLower o == "yes" &&
              tokenIdValid (pyOr (dictGet kvs "token_id") (dictGet kvs "tokenId"))) = true
          · rw [if_pos h1] at h
            obtain rfl := Except.ok.inj h
            rw [Bool.and_eq_true, tokenIdValid, Bool.and_eq_true] at h1
            refine ⟨?_, hst.2⟩
            intro v hv
            obtain rfl := Option.some.inj hv
            exact of_decide_eq_true h1.2.2
          · rw [if_neg h1] at h
            by_cases h2 : (pyLower o == "no" &&
                tokenIdValid (pyOr (dictGet kvs "token_id") (dictGet kvs "tokenId"))) = true
            · rw [if_pos h2] at h
              obtain rfl := Except.ok.inj h
              rw [Bool.and_eq_true, tokenIdValid, Bool.and_eq_true] at h2
              refine ⟨hst.1, ?_⟩
              intro v hv
              obtain rfl := Option.some.inj hv
              exact of_decide_eq_true h2.2.2
            · rw [if_neg h2] at h
              obtain rfl := Except.ok.inj h
              exact hst
      | null => simp only [tokenLoopStep, ho] at h; exact Except.noConfusion h
      | bool b => simp only [tokenLoopStep, ho] at h; exact Except.noConfusion h
      | num q => simp only [tokenLoopStep, ho] at h; exact Except.noConfusion h
      | arr xs => simp only [tokenLoopStep, ho] at h; exact Except.noConfusion h
      | obj kvs2 => simp only [tokenLoopStep, ho] at h; exact Except.noConfusion h
  | null => exact absurd h (by simp [tokenLoopStep])
  | bool b => exact absurd h (by simp [tokenLoopStep])
  | num q => exact absurd h (by simp [tokenLoopStep])
  | str s => exact absurd h (by simp [tokenLoopStep])
  | arr xs => exact absurd h (by simp [tokenLoopStep])

/-- The loop invariant of `tokenLoopStep_inv`, folded over a whole tagged
token list. -/
theorem tokenLoop_inv (l : List JVal) :
    ∀ (st st' : Option JVal × Option JVal),
    l.foldlM tokenLoopStep st = .ok st' →
    ((∀ v, st.1 = some v → 10 < pyStrLen v) ∧
     (∀ v, st.2 = some v → 10 < pyStrLen v)) →
    ((∀ v, st'.1 = some v → 10 < pyStrLen v) ∧
     (∀ v, st'.2 = some v → 10 < pyStrLen v)) := by
  induction l with
  | nil =>
      intro st st' h hst
      obtain rfl := Except.ok.inj h
      exact hst
  | cons t rest ih =>
      intro st st' h hst
      rw [foldlM_consE] at h
      cases hstep : tokenLoopStep st t with
      | ok st1 =>
          rw [hstep, exceptBind_ok] at h
          exact ih st1 st' h (tokenLoopStep_inv st st1 t hstep hst)
      | error e =>
          rw [hstep, exceptBind_error] at h
          exact Except.noConfusion h

/-- A qualifying normalized pair field short-circuits the extraction. -/
theorem clobCandidates_pair (y n : JVal) (rest : List JVal)
    (hy : tokenIdValid y = true) (hn : tokenIdValid n = true) :
    clobCandidates (.arr (y :: n :: rest)) = .ok (some (y, n)) := by
  rw [clobCandidates]
  have ht : (JVal.arr (y :: n :: rest)).truthy = true := by simp [JVal.truthy]
  rw [if_pos ht]
  have h1 : pyLen (JVal.arr (y :: n :: rest)) = .ok (rest.length + 1 + 1) := rfl
  rw [h1, exceptBind_ok, if_pos (by omega : rest.length + 1 + 1 ≥ 2)]
  have h2 : pyIndex (JVal.arr (y :: n :: rest)) 0 = .ok y := rfl
  have h3 : pyIndex (JVal.arr (y :: n :: rest)) 1 = .ok n := rfl
  rw [h2, exceptBind_ok, h3, exceptBind_ok, hy, hn]
  rfl

/-- A successfully returned candidate pair passed both validity checks. -/
theorem clobCandidates_some (clob y no : JVal)
    (h : clobCandidates clob = .ok (some (y, no))) :
    tokenIdValid y = true ∧ tokenIdValid no = true := by
  rw [clobCandidates] at h
  by_cases ht : clob.truthy
  · rw [if_pos ht] at h
    cases hl : pyLen clob with
    | error e => rw [hl, exceptBind_error] at h; exact Except.noConfusion h
    | ok nlen =>
        rw [hl, exceptBind_ok] at h
        by_cases hlen : nlen ≥ 2
        · rw [if_pos hlen] at h
          cases h0 : pyIndex clob 0 with
          | error e => rw [h0, exceptBind_error] at h; exact Except.noConfusion h
          | ok y' =>
              rw [h0, exceptBind_ok] at h
              cases h1 : pyIndex clob 1 with
              | error e => rw [h1, exceptBind_error] at h; exact Except.noConfusion h
              | ok no' =>
                  rw [h1, exceptBind_ok] at h
                  by_cases hv : (tokenIdValid y' && tokenIdValid no') = true
                  · rw [if_pos hv] at h
                    rw [exceptPure] at h
                    obtain ⟨rfl, rfl⟩ := Prod.mk.inj (Option.some.inj (Except.ok.inj h))
                    exact Bool.and_eq_true _ _ ▸ hv
                  · rw [if_neg hv, exceptPure] at h
                    exact Option.noConfusion (Except.ok.inj h)
        · rw [if_neg hlen, exceptPure] at h
          exact Option.noConfusion (Except.ok.inj h)
  · rw [if_neg ht, exceptPure] at h
    exact Option.noConfusion (Except.ok.inj h)

theorem liveKeyExists_append (s u : List LiveRow) (mid ts : JVal)
    (h : liveKeyExists s mid ts = true) :
    liveKeyExists (s ++ u) mid ts = true := by
  rw [liveKeyExists, List.any_append]
  rw [liveKeyExists] at h
  simp [h]

theorem liveKeyExists_self (s : List LiveRow) (p : List (String × JVal)) :
    liveKeyExists (s ++ [liveRowOf p])
      (dictGet p "market_id") (dictGet p "timestamp") = true := by
  rw [liveKeyExists, List.any_append]
  have h1 : List.any [liveRowOf p] (fun r =>
      beqVal r.market_id (dictGet p "market_id") &&
      beqVal r.timestamp (dictGet p "timestamp")) = true := by
    simp only [List.any_cons, List.any_nil, Bool.or_false]
    rw [show (liveRowOf p).market_id = dictGet p "market_id" from rfl,
      show (liveRowOf p).timestamp = dictGet p "timestamp" from rfl]
    simp [beqVal_refl]
  simp [h1]

theorem ingestLiveLoop_grows :
    ∀ (data : List (List (String × JVal))) (s : List LiveRow) (i k : Nat),
    ∃ t, (ingestLiveLoop s i k data).1 = s ++ t := by
  intro data
  induction data with
  | nil => intro s i k; exact ⟨[], by simp [ingestLiveLoop]⟩
  | cons p rest ih =>
      intro s i k
      rw [ingestLiveLoop]
      by_cases h1 : (!(dictGet p "market_id").truthy || !(dictGet p "timestamp").truthy) = true
      · rw [if_pos h1]; exact ih s i k
      · rw [if_neg h1]
        by_cases h2 : liveKeyExists s (dictGet p "market_id") (dictGet p "timestamp") = true
        · rw [if_pos h2]; exact ih s i (k + 1)
        · rw [if_neg h2]
          obtain ⟨t, ht⟩ := ih (s ++ [liveRowOf p]) (i + 1) k
          exact ⟨[liveRowOf p] ++ t, by rw [ht, List.append_assoc]⟩

theorem ingestLiveLoop_keys_present :
    ∀ (data : List (List (String × JVal))) (s : List LiveRow) (i k : Nat)
      (p : List (String × JVal)), p ∈ data → validLive p = true →
    liveKeyExists (ingestLiveLoop s i k data).1
      (dictGet p "market_id") (dictGet p "timestamp") = true := by
  intro data
  induction data with
  | nil => intro s i k p hp; simp at hp
  | cons q rest ih =>
      intro s i k p hp hv
      rw [ingestLiveLoop]
      by_cases h1 : (!(dictGet q "market_id").truthy || !(dictGet q "timestamp").truthy) = true
      · rw [if_pos h1]
        rcases List.mem_cons.mp hp with rfl | hp'
        · rw [validLive, Bool.and_eq_true] at hv
          rw [hv.1, hv.2] at h1
          simp at h1
        · exact ih s i k p hp' hv
      · rw [if_neg h1]
        by_cases h2 : liveKeyExists s (dictGet q "market_id") (dictGet q "timestamp") = true
        · rw [if_pos h2]
          rcases List.mem_cons.mp hp with rfl | hp'
          · obtain ⟨t, ht⟩ := ingestLiveLoop_grows rest s i (k + 1)
            rw [ht]
            exact liveKeyExists_append s t _ _ h2
          · exact ih s i (k + 1) p hp' hv
        · rw [if_neg h2]
          rcases List.mem_cons.mp hp with rfl | hp'
          · obtain ⟨t, ht⟩ := ingestLiveLoop_grows rest (s ++ [liveRowOf p]) (i + 1) k
            rw [ht]
            exact liveKeyExists_append _ t _ _ (liveKeyExists_self s p)
          · exact ih (s ++ [liveRowOf q]) (i + 1) k p hp' hv

theorem ingestLiveLoop_noop :
    ∀ (data : List (List (String × JVal))) (s : List LiveRow) (i k : Nat),
    (∀ p ∈ data, validLive p = true →
      liveKeyExists s (dictGet p "market_id") (dictGet p "timestamp") = true) →
    ingestLiveLoop s i k data = (s, i, k + data.countP (fun q => validLive q)) := by
  intro data
  induction data with
  | nil => intro s i k _; simp [ingestLiveLoop]
  | cons p rest ih =>
      intro s i k hall
      rw [ingestLiveLoop]
      by_cases h1 : (!(dictGet p "market_id").truthy || !(dictGet p "timestamp").truthy) = true
      · rw [if_pos h1]
        have hv : validLive p = false := by
          rw [validLive]
          rcases Bool.or_eq_true_iff.mp h1 with h | h
          · have h' : (dictGet p "market_id").truthy = false := by simpa using h
            simp [h']
          · have h' : (dictGet p "timestamp").truthy = false := by simpa using h
            simp [h']
        rw [ih s i k (fun q hq hqv => hall q (by simp [hq]) hqv)]
        simp [List.countP_cons, hv]
      · rw [if_neg h1]
        have hv : validLive p = true := by
          rw [validLive]
          simp only [Bool.or_eq_true, Bool.not_eq_true', not_or, Bool.not_eq_false] at h1
          simp [h1.1, h1.2]
        rw [if_pos (hall p (by simp) hv)]
        rw [ih s i (k + 1) (fun q hq hqv => hall q (by simp [hq]) hqv)]
        rw [List.countP_cons]
        simp [hv]
        omega

theorem histKeyExists_append (s u : List HistRow) (mid side : String) (ts : ℚ)
    (h : histKeyExists s mid side ts = true) :
    histKeyExists (s ++ u) mid side ts = true := by
  rw [histKeyExists, List.any_append]
  rw [histKeyExists] at h
  simp [h]

theorem histKeyExists_append_false (s u : List HistRow) (mid side : String)
    (ts : ℚ) (h : histKeyExists (s ++ u) mid side ts = false) :
    histKeyExists s mid side ts = false := by
  by_contra hc
  rw [histKeyExists_append s u mid side ts (Bool.not_eq_false _ ▸ hc)] at h
  exact Bool.noConfusion h

theorem histPointStep_grows (mid : String) (q y n : JVal) (side : String)
    (st : HistSt) (pt : JVal) (st' : HistSt)
    (h : histPointStep mid q y n side st pt = .ok st') :
    ∃ u, st'.store = st.store ++ u ∧ st'.ins = st.ins + u.length ∧
      ∀ r ∈ u, histKeyExists st.store r.market_id r.side r.timestamp = false := by
  cases pt with
  | obj kvs =>
      rw [histPointStep] at h
      by_cases hg : (beqVal (dictGet kvs "t") .null || beqVal (dictGet kvs "p") .null) = true
      · rw [if_pos hg] at h
        obtain rfl := Except.ok.inj h
        exact ⟨[], by simp⟩
      · rw [if_neg hg] at h
        cases he : epochOf (dictGet kvs "t") with
        | error e => rw [he, exceptBind_error] at h; exact Except.noConfusion h
        | ok ts =>
            rw [he, exceptBind_ok] at h
            by_cases hk : histKeyExists st.store mid side ts = true
            · rw [if_pos hk] at h
              obtain rfl := Except.ok.inj h
              exact ⟨[], by simp⟩
            · rw [if_neg hk] at h
              obtain rfl := Except.ok.inj h
              refine ⟨[⟨mid, q, y, n, side, dictGet kvs "p", ts⟩], rfl, by simp, ?_⟩
              intro r hr
              obtain rfl := List.mem_singleton.mp hr
              exact Bool.not_eq_true _ ▸ hk
  | null => exact absurd h (by simp [histPointStep])
  | bool b => exact absurd h (by simp [histPointStep])
  | num qq => exact absurd h (by simp [histPointStep])
  | str s2 => exact absurd h (by simp [histPointStep])
  | arr xs => exact absurd h (by simp [histPointStep])

theorem histPointStep_processable (mid : String) (q y n : JVal) (side : String)
    (st : HistSt) (pt : JVal) (st' : HistSt)
    (h : histPointStep mid q y n side st pt = .ok st') :
    processablePoint pt = true := by
  cases pt with
  | obj kvs =>
      rw [histPointStep] at h
      rw [processablePoint]
      by_cases hg : (beqVal (dictGet kvs "t") .null || beqVal (dictGet kvs "p") .null) = true
      · simp [hg]
      · rw [if_neg hg] at h
        cases he : epochOf (dictGet kvs "t") with
        | error e => rw [he, exceptBind_error] at h; exact Except.noConfusion h
        | ok ts => simp [he, Except.toOption]
  | null => exact absurd h (by simp [histPointStep])
  | bool b => exact absurd h (by simp [histPointStep])
  | num qq => exact absurd h (by simp [histPointStep])
  | str s2 => exact absurd h (by simp [histPointStep])
  | arr xs => exact absurd h (by simp [histPointStep])

theorem histPointStep_keys (mid : String) (q y n : JVal) (side : String)
    (st : HistSt) (pt : JVal) (st' : HistSt)
    (h : histPointStep mid q y n side st pt = .ok st')
    (hv : validHistPoint pt = true) :
    histKeyExists st'.store mid side (pointEpoch pt) = true := by
  cases pt with
  | obj kvs =>
      rw [validHistPoint, Bool.and_eq_true] at hv
      have hg : (beqVal (dictGet kvs "t") .null || beqVal (dictGet kvs "p") .null) = false := by
        simpa using hv.1
      rw [histPointStep, if_neg (by simp [hg])] at h
      cases he : epochOf (dictGet kvs "t") with
      | error e => rw [he, exceptBind_error] at h; exact Except.noConfusion h
      | ok ts =>
          rw [he, exceptBind_ok] at h
          have hpe : pointEpoch (.obj kvs) = ts := by
            rw [pointEpoch, he]
            rfl
          rw [hpe]
          by_cases hk : histKeyExists st.store mid side ts = true
          · rw [if_pos hk] at h
            obtain rfl := Except.ok.inj h
            exact hk
          · rw [if_neg hk] at h
            obtain rfl := Except.ok.inj h
            show histKeyExists (st.store ++ [⟨mid, q, y, n, side, dictGet kvs "p", ts⟩])
              mid side ts = true
            rw [histKeyExists, List.any_append]
            simp [histKeyExists]
  | null => simp [validHistPoint] at hv
  | bool b => simp [validHistPoint] at hv
  | num qq => simp [validHistPoint] at hv
  | str s2 => simp [validHistPoint] at hv
  | arr xs => simp [validHistPoint] at hv

theorem histPointStep_drop (mid : String) (q y n : JVal) (side : String)
    (st : HistSt) (pt : JVal)
    (hp : processablePoint pt = true) (hv : validHistPoint pt = false) :
    histPointStep mid q y n side st pt = .ok st := by
  cases pt with
  | obj kvs =>
      rw [processablePoint] at hp
      rw [validHistPoint] at hv
      by_cases hg : (beqVal (dictGet kvs "t") .null || beqVal (dictGet kvs "p") .null) = true
      · rw [histPointStep, if_pos hg]
      · rw [Bool.or_eq_true] at hp
        rcases hp with hp | hp
        · exact absurd hp hg
        · exfalso
          have hg' : (beqVal (dictGet kvs "t") .null ||
              beqVal (dictGet kvs "p") .null) = false := by simpa using hg
          rw [hg', hp] at hv
          simp at hv
  | null => simp [processablePoint] at hp
  | bool b => simp [processablePoint] at hp
  | num qq => simp [processablePoint] at hp
  | str s2 => simp [processablePoint] at hp
  | arr xs => simp [processablePoint] at hp

theorem histPointStep_dup (mid : String) (q y n : JVal) (side : String)
    (st : HistSt) (pt : JVal)
    (hv : validHistPoint pt = true)
    (hk : histKeyExists st.store mid side (pointEpoch pt) = true) :
    histPointStep mid q y n side st pt = .ok ⟨st.store, st.ins, st.skip + 1⟩ := by
  cases pt with
  | obj kvs =>
      rw [validHistPoint, Bool.and_eq_true] at hv
      have hg : (beqVal (dictGet kvs "t") .null || beqVal (dictGet kvs "p") .null) = false := by
        simpa using hv.1
      rw [histPointStep, if_neg (by simp [hg])]
      obtain ⟨ts, he⟩ : ∃ ts, epochOf (dictGet kvs "t") = .ok ts := by
        cases he' : epochOf (dictGet kvs "t") with
        | ok ts => exact ⟨ts, rfl⟩
        | error e => rw [he'] at hv; simp [Except.toOption] at hv
      rw [he, exceptBind_ok]
      have hpe : pointEpoch (.obj kvs) = ts := by
        rw [pointEpoch, he]
        rfl
      rw [hpe] at hk
      rw [if_pos hk]
  | null => simp [validHistPoint] at hv
  | bool b => simp [validHistPoint] at hv
  | num qq => simp [validHistPoint] at hv
  | str s2 => simp [validHistPoint] at hv
  | arr xs => simp [validHistPoint] at hv


theorem histFold_grows (mid : String) (q y n : JVal) (side : String) :
    ∀ (points : List JVal) (st st' : HistSt),
    points.foldlM (histPointStep mid q y n side) st = .ok st' →
    ∃ u, st'.store = st.store ++ u ∧ st'.ins = st.ins + u.length ∧
      ∀ r ∈ u, histKeyExists st.store r.market_id r.side r.timestamp = false := by
  intro points
  induction points with
  | nil =>
      intro st st' h
      obtain rfl := Except.ok.inj h
      exact ⟨[], by simp⟩
  | cons pt rest ih =>
      intro st st' h
      rw [foldlM_consE] at h
      cases hstep : histPointStep mid q y n side st pt with
      | error e => rw [hstep, exceptBind_error] at h; exact Except.noConfusion h
      | ok st1 =>
          rw [hstep, exceptBind_ok] at h
          obtain ⟨u1, hu1, hi1, hn1⟩ := histPointStep_grows mid q y n side st pt st1 hstep
          obtain ⟨u2, hu2, hi2, hn2⟩ := ih st1 st' h
          refine ⟨u1 ++ u2, ?_, ?_, ?_⟩
          · rw [hu2, hu1, List.append_assoc]
          · rw [hi2, hi1, List.length_append]
            omega
          · intro r hr
            rcases List.mem_append.mp hr with hr1 | hr2
            · exact hn1 r hr1
            · have := hn2 r hr2
              rw [hu1] at this
              exact histKeyExists_append_false _ _ _ _ _ this

theorem histFold_processable (mid : String) (q y n : JVal) (side : String) :
    ∀ (points : List JVal) (st st' : HistSt),
    points.foldlM (histPointStep mid q y n side) st = .ok st' →
    ∀ pt ∈ points, processablePoint pt = true := by
  intro points
  induction points with
  | nil => intro st st' _ pt hpt; simp at hpt
  | cons pt0 rest ih =>
      intro st st' h pt hpt
      rw [foldlM_consE] at h
      cases hstep : histPointStep mid q y n side st pt0 with
      | error e => rw [hstep, exceptBind_error] at h; exact Except.noConfusion h
      | ok st1 =>
          rw [hstep, exceptBind_ok] at h
          rcases List.mem_cons.mp hpt with rfl | hpt'
          · exact histPointStep_processable mid q y n side st pt st1 hstep
          · exact ih st1 st' h pt hpt'

theorem histFold_keys (mid : String) (q y n : JVal) (side : String) :
    ∀ (points : List JVal) (st st' : HistSt),
    points.foldlM (histPointStep mid q y n side) st = .ok st' →
    ∀ pt ∈ points, validHistPoint pt = true →
    histKeyExists st'.store mid side (pointEpoch pt) = true := by
  intro points
  induction points with
  | nil => intro st st' _ pt hpt; simp at hpt
  | cons pt0 rest ih =>
      intro st st' h pt hpt hv
      rw [foldlM_consE] at h
      cases hstep : histPointStep mid q y n side st pt0 with
      | error e => rw [hstep, exceptBind_error] at h; exact Except.noConfusion h
      | ok st1 =>
          rw [hstep, exceptBind_ok] at h
          rcases List.mem_cons.mp hpt with rfl | hpt'
          · have h1 := histPointStep_keys mid q y n side st pt st1 hstep hv
            obtain ⟨u, hu, -, -⟩ := histFold_grows mid q y n side rest st1 st' h
            rw [hu]
            exact histKeyExists_append _ _ _ _ _ h1
          · exact ih st1 st' h pt hpt' hv

theorem histFold_noop (mid : String) (q y n : JVal) (side : String) :
    ∀ (points : List JVal) (st : HistSt),
    (∀ pt ∈ points, processablePoint pt = true) →
    (∀ pt ∈ points, validHistPoint pt = true →
      histKeyExists st.store mid side (pointEpoch pt) = true) →
    ∃ k, points.foldlM (histPointStep mid q y n side) st =
      .ok ⟨st.store, st.ins, k⟩ := by
  intro points
  induction points with
  | nil => intro st _ _; exact ⟨st.skip, rfl⟩
  | cons pt rest ih =>
      intro st hproc hkeys
      rw [foldlM_consE]
      by_cases hv : validHistPoint pt = true
      · rw [histPointStep_dup mid q y n side st pt hv (hkeys pt (by simp) hv),
          exceptBind_ok]
        exact ih ⟨st.store, st.ins, st.skip + 1⟩
          (fun p hp => hproc p (by simp [hp]))
          (fun p hp hpv => hkeys p (by simp [hp]) hpv)
      · rw [histPointStep_drop mid q y n side st pt (hproc pt (by simp))
            (Bool.not_eq_true _ ▸ hv), exceptBind_ok]
        exact ih st (fun p hp => hproc p (by simp [hp]))
          (fun p hp hpv => hkeys p (by simp [hp]) hpv)

theorem histSideRun_eq_fold (mid : String) (q y n : JVal) (side : String)
    (hf : JVal) (st : HistSt) :
    histSideRun mid q y n side hf st =
      (sidePoints hf).foldlM (histPointStep mid q y n side) st := by
  cases hf with
  | obj kvs =>
      rw [histSideRun, sidePoints]
      by_cases he : kvs.isEmpty
      · rw [if_pos he, if_pos he]
        rfl
      · rw [if_neg he, if_neg he]
        cases dictGetD kvs "history" (.arr []) <;> rfl
  | null => rfl
  | bool b => rfl
  | num qq => rfl
  | str s2 => rfl
  | arr xs => rfl

theorem histMarketStep_grows (st : HistSt) (e : String × JVal) (st' : HistSt)
    (h : histMarketStep st e = .ok st') :
    ∃ u, st'.store = st.store ++ u ∧ st'.ins = st.ins + u.length ∧
      ∀ r ∈ u, histKeyExists st.store r.market_id r.side r.timestamp = false := by
  obtain ⟨mid, mh⟩ := e
  rw [histMarketStep] at h
  by_cases ht : mh.truthy
  · rw [if_neg (by simp [ht])] at h
    cases mh with
    | obj kvs =>
        replace h := show (do
            let st1 ← histSideRun mid (dictGet kvs "question")
              (dictGet kvs "yes_token_id") (dictGet kvs "no_token_id") "YES"
              (dictGet kvs "yes_history") st
            histSideRun mid (dictGet kvs "question") (dictGet kvs "yes_token_id")
              (dictGet kvs "no_token_id") "NO" (dictGet kvs "no_history") st1) =
            Except.ok st' from h
        cases h1 : histSideRun mid (dictGet kvs "question") (dictGet kvs "yes_token_id")
            (dictGet kvs "no_token_id") "YES" (dictGet kvs "yes_history") st with
        | error e1 => rw [h1, exceptBind_error] at h; exact Except.noConfusion h
        | ok st1 =>
            rw [h1, exceptBind_ok] at h
            rw [histSideRun_eq_fold] at h1 h
            obtain ⟨u1, hu1, hi1, hn1⟩ := histFold_grows _ _ _ _ _ _ _ _ h1
            obtain ⟨u2, hu2, hi2, hn2⟩ := histFold_grows _ _ _ _ _ _ _ _ h
            refine ⟨u1 ++ u2, ?_, ?_, ?_⟩
            · rw [hu2, hu1, List.append_assoc]
            · rw [hi2, hi1, List.length_append]
              omega
            · intro r hr
              rcases List.mem_append.mp hr with hr1 | hr2
              · exact hn1 r hr1
              · have := hn2 r hr2
                rw [hu1] at this
                exact histKeyExists_append_false _ _ _ _ _ this
    | null => simp [JVal.truthy] at ht
    | bool b => exact Except.noConfusion h
    | num qq => exact Except.noConfusion h
    | str s2 => exact Except.noConfusion h
    | arr xs => exact Except.noConfusion h
  · rw [if_pos (by simp [Bool.not_eq_true _ ▸ ht])] at h
    obtain rfl := Except.ok.inj h
    exact ⟨[], by simp⟩

theorem histMarketStep_processable (st : HistSt) (e : String × JVal)
    (st' : HistSt) (h : histMarketStep st e = .ok st') :
    processableEntry e.2 = true ∧
    (∀ pt ∈ entryYesPoints e.2, processablePoint pt = true) ∧
    (∀ pt ∈ entryNoPoints e.2, processablePoint pt = true) := by
  obtain ⟨mid, mh⟩ := e
  rw [histMarketStep] at h
  by_cases ht : mh.truthy
  · rw [if_neg (by simp [ht])] at h
    cases mh with
    | obj kvs =>
        replace h := show (do
            let st1 ← histSideRun mid (dictGet kvs "question")
              (dictGet kvs "yes_token_id") (dictGet kvs "no_token_id") "YES"
              (dictGet kvs "yes_history") st
            histSideRun mid (dictGet kvs "question") (dictGet kvs "yes_token_id")
              (dictGet kvs "no_token_id") "NO" (dictGet kvs "no_history") st1) =
            Except.ok st' from h
        cases h1 : histSideRun mid (dictGet kvs "question") (dictGet kvs "yes_token_id")
            (dictGet kvs "no_token_id") "YES" (dictGet kvs "yes_history") st with
        | error e1 => rw [h1, exceptBind_error] at h; exact Except.noConfusion h
        | ok st1 =>
            rw [h1, exceptBind_ok] at h
            rw [histSideRun_eq_fold] at h1 h
            refine ⟨by simp [processableEntry, ht], ?_, ?_⟩
            · intro pt hpt
              rw [entryYesPoints, if_pos ht] at hpt
              exact histFold_processable _ _ _ _ _ _ _ _ h1 pt hpt
            · intro pt hpt
              rw [entryNoPoints, if_pos ht] at hpt
              exact histFold_processable _ _ _ _ _ _ _ _ h pt hpt
    | null => simp [JVal.truthy] at ht
    | bool b => exact Except.noConfusion h
    | num qq => exact Except.noConfusion h
    | str s2 => exact Except.noConfusion h
    | arr xs => exact Except.noConfusion h
  · have ht' : mh.truthy = false := Bool.not_eq_true _ ▸ ht
    refine ⟨by simp [processableEntry, ht'], ?_, ?_⟩
    · intro pt hpt
      simp [entryYesPoints, ht'] at hpt
    · intro pt hpt
      simp [entryNoPoints, ht'] at hpt

theorem histMarketStep_keys (st : HistSt) (e : String × JVal) (st' : HistSt)
    (h : histMarketStep st e = .ok st') :
    (∀ pt ∈ entryYesPoints e.2, validHistPoint pt = true →
      histKeyExists st'.store e.1 "YES" (pointEpoch pt) = true) ∧
    (∀ pt ∈ entryNoPoints e.2, validHistPoint pt = true →
      histKeyExists st'.store e.1 "NO" (pointEpoch pt) = true) := by
  obtain ⟨mid, mh⟩ := e
  rw [histMarketStep] at h
  by_cases ht : mh.truthy
  · rw [if_neg (by simp [ht])] at h
    cases mh with
    | obj kvs =>
        replace h := show (do
            let st1 ← histSideRun mid (dictGet kvs "question")
              (dictGet kvs "yes_token_id") (dictGet kvs "no_token_id") "YES"
              (dictGet kvs "yes_history") st
            histSideRun mid (dictGet kvs "question") (dictGet kvs "yes_token_id")
              (dictGet kvs "no_token_id") "NO" (dictGet kvs "no_history") st1) =
            Except.ok st' from h
        cases h1 : histSideRun mid (dictGet kvs "question") (dictGet kvs "yes_token_id")
            (dictGet kvs "no_token_id") "YES" (dictGet kvs "yes_history") st with
        | error e1 => rw [h1, exceptBind_error] at h; exact Except.noConfusion h
        | ok st1 =>
            rw [h1, exceptBind_ok] at h
            rw [histSideRun_eq_fold] at h1 h
            constructor
            · intro pt hpt hv
              rw [entryYesPoints, if_pos ht] at hpt
              have hk1 := histFold_keys _ _ _ _ _ _ _ _ h1 pt hpt hv
              obtain ⟨u2, hu2, -, -⟩ := histFold_grows _ _ _ _ _ _ _ _ h
              rw [hu2]
              exact histKeyExists_append _ _ _ _ _ hk1
            · intro pt hpt hv
              rw [entryNoPoints, if_pos ht] at hpt
              exact histFold_keys _ _ _ _ _ _ _ _ h pt hpt hv
    | null => simp [JVal.truthy] at ht
    | bool b => exact Except.noConfusion h
    | num qq => exact Except.noConfusion h
    | str s2 => exact Except.noConfusion h
    | arr xs => exact Except.noConfusion h
  · have ht' : mh.truthy = false := Bool.not_eq_true _ ▸ ht
    constructor
    · intro pt hpt
      simp [entryYesPoints, ht'] at hpt
    · intro pt hpt
      simp [entryNoPoints, ht'] at hpt

theorem histMarketStep_noop (st : HistSt) (e : String × JVal)
    (hproc : processableEntry e.2 = true)
    (hpy : ∀ pt ∈ entryYesPoints e.2, processablePoint pt = true)
    (hpn : ∀ pt ∈ entryNoPoints e.2, processablePoint pt = true)
    (hky : ∀ pt ∈ entryYesPoints e.2, validHistPoint pt = true →
      histKeyExists st.store e.1 "YES" (pointEpoch pt) = true)
    (hkn : ∀ pt ∈ entryNoPoints e.2, validHistPoint pt = true →
      histKeyExists st.store e.1 "NO" (pointEpoch pt) = true) :
    ∃ k, histMarketStep st e = .ok ⟨st.store, st.ins, k⟩ := by
  obtain ⟨mid, mh⟩ := e
  rw [histMarketStep]
  by_cases ht : mh.truthy
  · rw [if_neg (by simp [ht])]
    cases mh with
    | obj kvs =>
        rw [entryYesPoints, if_pos ht] at hpy hky
        rw [entryNoPoints, if_pos ht] at hpn hkn
        obtain ⟨k1, hk1⟩ := histFold_noop mid (dictGet kvs "question")
          (dictGet kvs "yes_token_id") (dictGet kvs "no_token_id") "YES"
          (sidePoints (dictGet kvs "yes_history")) st hpy hky
        obtain ⟨k2, hk2⟩ := histFold_noop mid (dictGet kvs "question")
          (dictGet kvs "yes_token_id") (dictGet kvs "no_token_id") "NO"
          (sidePoints (dictGet kvs "no_history")) ⟨st.store, st.ins, k1⟩ hpn hkn
        have hy2 : histSideRun mid (dictGet kvs "question")
            (dictGet kvs "yes_token_id") (dictGet kvs "no_token_id") "YES"
            (dictGet kvs "yes_history") st = .ok ⟨st.store, st.ins, k1⟩ := by
          rw [histSideRun_eq_fold]
          exact hk1
        have hn2 : histSideRun mid (dictGet kvs "question")
            (dictGet kvs "yes_token_id") (dictGet kvs "no_token_id") "NO"
            (dictGet kvs "no_history") ⟨st.store, st.ins, k1⟩ =
            .ok ⟨st.store, st.ins, k2⟩ := by
          rw [histSideRun_eq_fold]
          exact hk2
        refine ⟨k2, ?_⟩
        show (do
            let st1 ← histSideRun mid (dictGet kvs "question")
              (dictGet kvs "yes_token_id") (dictGet kvs "no_token_id") "YES"
              (dictGet kvs "yes_history") st
            histSideRun mid (dictGet kvs "question") (dictGet kvs "yes_token_id")
              (dictGet kvs "no_token_id") "NO" (dictGet kvs "no_history") st1) =
            Except.ok ⟨st.store, st.ins, k2⟩
        rw [hy2, exceptBind_ok, hn2]
    | null => simp [JVal.truthy] at ht
    | bool b => simp [processableEntry, ht] at hproc
    | num qq => simp [processableEntry, ht] at hproc
    | str s2 => simp [processableEntry, ht] at hproc
    | arr xs => simp [processableEntry, ht] at hproc
  · rw [if_pos (by simp [Bool.not_eq_true _ ▸ ht])]
    exact ⟨st.skip, rfl⟩


theorem histIngest_grows :
    ∀ (data : List (String × JVal)) (st0 st : HistSt),
    data.foldlM histMarketStep st0 = .ok st →
    ∃ u, st.store = st0.store ++ u ∧ st.ins = st0.ins + u.length ∧
      ∀ r ∈ u, histKeyExists st0.store r.market_id r.side r.timestamp = false := by
  intro data
  induction data with
  | nil =>
      intro st0 st h
      obtain rfl := Except.ok.inj h
      exact ⟨[], by simp⟩
  | cons e rest ih =>
      intro st0 st h
      rw [foldlM_consE] at h
      cases hstep : histMarketStep st0 e with
      | error e1 => rw [hstep, exceptBind_error] at h; exact Except.noConfusion h
      | ok st1 =>
          rw [hstep, exceptBind_ok] at h
          obtain ⟨u1, hu1, hi1, hn1⟩ := histMarketStep_grows st0 e st1 hstep
          obtain ⟨u2, hu2, hi2, hn2⟩ := ih st1 st h
          refine ⟨u1 ++ u2, ?_, ?_, ?_⟩
          · rw [hu2, hu1, List.append_assoc]
          · rw [hi2, hi1, List.length_append]
            omega
          · intro r hr
            rcases List.mem_append.mp hr with hr1 | hr2
            · exact hn1 r hr1
            · have := hn2 r hr2
              rw [hu1] at this
              exact histKeyExists_append_false _ _ _ _ _ this

theorem histIngest_processable :
    ∀ (data : List (String × JVal)) (st0 st : HistSt),
    data.foldlM histMarketStep st0 = .ok st →
    ∀ e ∈ data, processableEntry e.2 = true ∧
      (∀ pt ∈ entryYesPoints e.2, processablePoint pt = true) ∧
      (∀ pt ∈ entryNoPoints e.2, processablePoint pt = true) := by
  intro data
  induction data with
  | nil => intro st0 st _ e he; simp at he
  | cons e0 rest ih =>
      intro st0 st h e he
      rw [foldlM_consE] at h
      cases hstep : histMarketStep st0 e0 with
      | error e1 => rw [hstep, exceptBind_error] at h; exact Except.noConfusion h
      | ok st1 =>
          rw [hstep, exceptBind_ok] at h
          rcases List.mem_cons.mp he with rfl | he'
          · exact histMarketStep_processable st0 e st1 hstep
          · exact ih st1 st h e he'

theorem histIngest_keys :
    ∀ (data : List (String × JVal)) (st0 st : HistSt),
    data.foldlM histMarketStep st0 = .ok st →
    ∀ e ∈ data,
      (∀ pt ∈ entryYesPoints e.2, validHistPoint pt = true →
        histKeyExists st.store e.1 "YES" (pointEpoch pt) = true) ∧
      (∀ pt ∈ entryNoPoints e.2, validHistPoint pt = true →
        histKeyExists st.store e.1 "NO" (pointEpoch pt) = true) := by
  intro data
  induction data with
  | nil => intro st0 st _ e he; simp at he
  | cons e0 rest ih =>
      intro st0 st h e he
      rw [foldlM_consE] at h
      cases hstep : histMarketStep st0 e0 with
      | error e1 => rw [hstep, exceptBind_error] at h; exact Except.noConfusion h
      | ok st1 =>
          rw [hstep, exceptBind_ok] at h
          rcases List.mem_cons.mp he with rfl | he'
          · obtain ⟨hky, hkn⟩ := histMarketStep_keys st0 e st1 hstep
            obtain ⟨u, hu, -, -⟩ := histIngest_grows rest st1 st h
            constructor
            · intro pt hpt hv
              rw [hu]
              exact histKeyExists_append _ _ _ _ _ (hky pt hpt hv)
            · intro pt hpt hv
              rw [hu]
              exact histKeyExists_append _ _ _ _ _ (hkn pt hpt hv)
          · exact ih st1 st h e he'

theorem histIngest_noop :
    ∀ (data : List (String × JVal)) (st0 : HistSt),
    (∀ e ∈ data, processableEntry e.2 = true ∧
      (∀ pt ∈ entryYesPoints e.2, processablePoint pt = true) ∧
      (∀ pt ∈ entryNoPoints e.2, processablePoint pt = true)) →
    (∀ e ∈ data,
      (∀ pt ∈ entryYesPoints e.2, validHistPoint pt = true →
        histKeyExists st0.store e.1 "YES" (pointEpoch pt) = true) ∧
      (∀ pt ∈ entryNoPoints e.2, validHistPoint pt = true →
        histKeyExists st0.store e.1 "NO" (pointEpoch pt) = true)) →
    ∃ k, data.foldlM histMarketStep st0 = .ok ⟨st0.store, st0.ins, k⟩ := by
  intro data
  induction data with
  | nil => intro st0 _ _; exact ⟨st0.skip, rfl⟩
  | cons e rest ih =>
      intro st0 hproc hkeys
      obtain ⟨hp1, hp2, hp3⟩ := hproc e (by simp)
      obtain ⟨hk1, hk2⟩ := hkeys e (by simp)
      obtain ⟨k1, hstep⟩ := histMarketStep_noop st0 e hp1 hp2 hp3 hk1 hk2
      rw [foldlM_consE, hstep, exceptBind_ok]
      exact ih ⟨st0.store, st0.ins, k1⟩
        (fun e2 he2 => hproc e2 (by simp [he2]))
        (fun e2 he2 => hkeys e2 (by simp [he2]))

/-! ## Claim theorems -/

/-- C1: the claim says `extract_token_ids` never raises on malformed input.
The code contradicts it: a `clobTokenIds` field holding a number — whether
natively or as a JSON string decoding to the number 5 (a non-array) — makes
`len(...)` raise `TypeError`, and a `tokens` array whose elements are not
objects makes `.get` raise `AttributeError`. -/
theorem extract_token_ids_raises_on_malformed :
    extract_token_ids (fun _ => none) [("clobTokenIds", .num 5)] = .error .typeError ∧
    extract_token_ids (fun s => if s = "5" then some (.num 5) else none)
        [("clobTokenIds", .str "5")] = .error .typeError ∧
    extract_token_ids (fun _ => none) [("tokens", .arr [.num 1, .num 2])]
        = .error .attributeError :=
  ⟨rfl, rfl, rfl⟩

/-- C2 counterexample: the claim says an entry with a non-numeric price is
excluded individually, not affecting the other entries' contribution.  In
the code the whole comprehension is one `try` body, so the bid list
`[⟨price "0.5"⟩, ⟨price "abc"⟩]` yields `best_bid = None`, while the spec's
individual-exclusion reading yields `0.5`. -/
theorem parse_orderbook_side_lost_counterexample :
    parse_orderbook (.obj [("bids",
        .arr [.obj [("price", .num (1/2))], .obj [("price", .str "abc")]]),
      ("asks", .arr [])]) = .ok ⟨none, none, none, none⟩ ∧
    spec_best_bid [.obj [("price", .num (1/2))], .obj [("price", .str "abc")]]
      = some (1/2) ∧
    (some (1/2) : Option ℚ) ≠ none :=
  ⟨rfl, rfl, by simp⟩

/-- C2 amended: entries with a missing or `None` price are excluded
individually, and when every present price of a side converts, the side's
best is exactly the spec's max/min over the individually parsed prices; but
one entry whose present price fails to convert makes the entire side yield
`None`, regardless of the other well-formed entries. -/
theorem parse_orderbook_price_exclusion_amended (bids asks : List JVal)
    (hb : bids.all entryOk = true) (ha : asks.all entryOk = true) :
    parse_orderbook (.obj [("bids", .arr bids), ("asks", .arr asks)]) =
      .ok (mkSummary (spec_best_bid bids) (spec_best_ask asks)) ∧
    (∀ l : List JVal, (∀ e ∈ l, ∃ kvs, e = JVal.obj kvs) →
      l.all entryOk = false →
      sideBest (.arr l) true = .ok none ∧ sideBest (.arr l) false = .ok none) := by
  constructor
  · have h1 := (sideBest_wellformed bids hb).1
    have h2 := (sideBest_wellformed asks ha).2
    have ht : (JVal.obj [("bids", JVal.arr bids), ("asks", JVal.arr asks)]).truthy
        = true := by simp [JVal.truthy]
    simp only [parse_orderbook, ht, Bool.not_true, Bool.false_eq_true, if_false]
    have hbids : dictGetD [("bids", JVal.arr bids), ("asks", JVal.arr asks)]
        "bids" (.arr []) = .arr bids := rfl
    have hasks : dictGetD [("bids", JVal.arr bids), ("asks", JVal.arr asks)]
        "asks" (.arr []) = .arr asks := rfl
    rw [hbids, hasks, h1, exceptBind_ok, h2, exceptBind_ok]
  · intro l hobj hbad
    obtain ⟨e', he', hcl⟩ := collectPrices_fails l hobj hbad
    have hne : l ≠ [] := by
      intro hl
      subst hl
      simp at hbad
    have ht : (JVal.arr l).truthy = true := by
      cases l with
      | nil => exact absurd rfl hne
      | cons x xs => simp [JVal.truthy]
    constructor <;>
      simp only [sideBest, ht, Bool.not_true, Bool.false_eq_true, if_false, pyIter,
        exceptBind_ok, he'] <;>
      rcases hcl with h | h <;> rw [h]

/-- C2 amended witness: a book whose bids all convert and whose asks hold
one `None`-price entry, and a malformed side with one convertible and one
non-numeric price. -/
theorem parse_orderbook_price_exclusion_amended_witness :
    (parse_orderbook (.obj [("bids",
        .arr [.obj [("price", .num (2/5))], .obj [("price", .num (1/4))]]),
      ("asks", .arr [.obj [("price", .null)], .obj [("price", .num (3/5))]])]) =
      .ok (mkSummary
        (spec_best_bid [.obj [("price", .num (2/5))], .obj [("price", .num (1/4))]])
        (spec_best_ask [.obj [("price", .null)], .obj [("price", .num (3/5))]])) ∧
    (∀ l : List JVal, (∀ e ∈ l, ∃ kvs, e = JVal.obj kvs) →
      l.all entryOk = false →
      sideBest (.arr l) true = .ok none ∧ sideBest (.arr l) false = .ok none)) :=
  parse_orderbook_price_exclusion_amended
    [.obj [("price", .num (2/5))], .obj [("price", .num (1/4))]]
    [.obj [("price", .null)], .obj [("price", .num (3/5))]] rfl rfl

/-- C3 counterexample: the claim places the whole liveness check —
including the already-passed end timestamp — ahead of identifier validity,
so an ended market would always land in the `closed` tally.  In the code
the identifier checks run before the end-date check: a market whose end
has passed (its `ending_time` parses to instant 0, before `now = 1`) but
whose token ids are absent is tallied under `no_token_ids`, not under
`closed`. -/
theorem filter_markets_ended_tally_counterexample :
    filter_markets (fun s => if s = "2020-01-01T00:00:00+00:00" then some 0 else none) 1
        [.obj [("ending_time", .str "2020-01-01T00:00:00Z"), ("liquidity", .num 5)]] =
      .ok ([], ⟨0, 1, 0⟩) ∧
    marketEnded (fun s => if s = "2020-01-01T00:00:00+00:00" then some 0 else none) 1
        [("ending_time", .str "2020-01-01T00:00:00Z"), ("liquidity", .num 5)] =
      .ok true ∧
    (SkipCounts.mk 0 1 0).closed = 0 :=
  ⟨rfl, rfl, rfl⟩

/-- C3 amended: the ordered chain of `filter_markets` (02) is (1) state
text/flag, bucket `closed`; (2) identifier validity, bucket
`no_token_ids`; (3) already-passed end timestamp, bucket `closed`; (4)
liquidity, bucket `no_liquidity` — the first failing check names the
bucket.  A market whose end has passed is tallied under `closed` even when
its state field says active and regardless of its liquidity, provided its
identifiers pass their check, which runs first. -/
theorem check_market_first_failing_check (pISO : String → Option ℤ) (now : ℤ)
    (kvs : List (String × JVal)) :
    (stateClosed kvs = .ok true →
      check_market pISO now (.obj kvs) = .ok (some .closed)) ∧
    (stateClosed kvs = .ok false → tokenIdsInvalid kvs = true →
      check_market pISO now (.obj kvs) = .ok (some .no_token_ids)) ∧
    (stateClosed kvs = .ok false → tokenIdsInvalid kvs = false →
      marketEnded pISO now kvs = .ok true →
      check_market pISO now (.obj kvs) = .ok (some .closed) ∧
      filter_markets pISO now [.obj kvs] = .ok ([], ⟨1, 0, 0⟩)) ∧
    (stateClosed kvs = .ok false → tokenIdsInvalid kvs = false →
      marketEnded pISO now kvs = .ok false → liquidityInvalid kvs = true →
      check_market pISO now (.obj kvs) = .ok (some .no_liquidity)) ∧
    (stateClosed kvs = .ok false → tokenIdsInvalid kvs = false →
      marketEnded pISO now kvs = .ok false → liquidityInvalid kvs = false →
      check_market pISO now (.obj kvs) = .ok none) := by
  refine ⟨?_, ?_, ?_, ?_, ?_⟩
  · intro h1
    simp [check_market, h1, exceptBind_ok, exceptPure]
  · intro h1 h2
    simp [check_market, h1, h2, exceptBind_ok, exceptPure]
  · intro h1 h2 h3
    have hcm : check_market pISO now (.obj kvs) = .ok (some .closed) := by
      simp [check_market, h1, h2, h3, exceptBind_ok, exceptPure]
    refine ⟨hcm, ?_⟩
    rw [filter_markets, filterLoop, hcm]
    rfl
  · intro h1 h2 h3 h4
    simp [check_market, h1, h2, h3, h4, exceptBind_ok, exceptPure]
  · intro h1 h2 h3 h4
    simp [check_market, h1, h2, h3, h4, exceptBind_ok, exceptPure]

/-- C4 counterexample: the claim admits a record only when both token-id
stringifications are strictly longer than 10 characters.  The code rejects
only lengths strictly below 10, so a market whose two ids have length
exactly 10 passes the filter with every tally zero. -/
theorem filter_markets_admits_length_ten_ids :
    filter_markets (fun _ => none) 0
        [.obj [("yes_token_id", .str "0123456789"), ("no_token_id", .str "0123456789"),
               ("liquidity", .num 150)]] =
      .ok ([.obj [("yes_token_id", .str "0123456789"),
                  ("no_token_id", .str "0123456789"),
                  ("liquidity", .num 150)]], ⟨0, 0, 0⟩) ∧
    pyStrLen (.str "0123456789") = 10 :=
  ⟨rfl, rfl⟩

/-- C4 amended: the live-price filter admits a record only when both token
ids are truthy and their stringifications have length at least 10 (so ids
of length 9 or less are rejected under `no_token_ids`, but length exactly
10 is admitted); the historical-price filter checks presence only. -/
theorem filter_markets_admitted_id_lengths (pISO : String → Option ℤ) (now : ℤ)
    (ms fs : List JVal) (c : SkipCounts) (ms' fs' : List JVal) (c' : SkipCounts)
    (h : filter_markets pISO now ms = .ok (fs, c))
    (h' : filter_markets_hist ms' = .ok (fs', c')) :
    (∀ m ∈ fs, ∃ kvs, m = JVal.obj kvs ∧
      (dictGet kvs "yes_token_id").truthy = true ∧
      10 ≤ pyStrLen (dictGet kvs "yes_token_id") ∧
      (dictGet kvs "no_token_id").truthy = true ∧
      10 ≤ pyStrLen (dictGet kvs "no_token_id")) ∧
    (∀ m ∈ fs', ∃ kvs, m = JVal.obj kvs ∧
      (dictGet kvs "yes_token_id").truthy = true ∧
      (dictGet kvs "no_token_id").truthy = true) := by
  constructor
  · intro m hm
    have hadm : check_market pISO now m = .ok none := by
      rcases filterLoop_admitted _ ms [] .zero fs c h m hm with h0 | h0
      · simp at h0
      · exact h0
    obtain ⟨kvs, rfl, hti⟩ := check_market_admitted pISO now m hadm
    rw [tokenIdsInvalid] at hti
    simp only [Bool.or_eq_false_iff, Bool.not_eq_false', decide_eq_false_iff_not,
      Nat.not_lt] at hti
    exact ⟨kvs, rfl, hti.1.1.1, hti.1.2, hti.1.1.2, hti.2⟩
  · intro m hm
    have hadm : check_market_hist m = .ok none := by
      rcases filterLoop_admitted _ ms' [] .zero fs' c' h' m hm with h0 | h0
      · simp at h0
      · exact h0
    obtain ⟨kvs, rfl, hti⟩ := check_market_hist_admitted m hadm
    rw [tokenIdsMissingHist] at hti
    simp only [Bool.or_eq_false_iff, Bool.not_eq_false'] at hti
    exact ⟨kvs, rfl, hti.1.1.1, hti.1.1.2⟩

/-- C4 amended witness: a batch with one admissible market (11-character
ids) and one with too-short ids, pushed through both filters. -/
theorem filter_markets_admitted_id_lengths_witness :
    (∀ m ∈ [JVal.obj [("yes_token_id", .str "01234567890"),
        ("no_token_id", .str "01234567890"), ("liquidity", .num 5)]],
      ∃ kvs, m = JVal.obj kvs ∧
        (dictGet kvs "yes_token_id").truthy = true ∧
        10 ≤ pyStrLen (dictGet kvs "yes_token_id") ∧
        (dictGet kvs "no_token_id").truthy = true ∧
        10 ≤ pyStrLen (dictGet kvs "no_token_id")) ∧
    (∀ m ∈ [JVal.obj [("yes_token_id", .str "y"),
        ("no_token_id", .str "n"), ("liquidity", .num 5)]],
      ∃ kvs, m = JVal.obj kvs ∧
        (dictGet kvs "yes_token_id").truthy = true ∧
        (dictGet kvs "no_token_id").truthy = true) :=
  filter_markets_admitted_id_lengths (fun _ => none) 0
    [.obj [("yes_token_id", .str "01234567890"),
        ("no_token_id", .str "01234567890"), ("liquidity", .num 5)],
     .obj [("yes_token_id", .str "012"), ("no_token_id", .str "abc")]]
    [.obj [("yes_token_id", .str "01234567890"),
        ("no_token_id", .str "01234567890"), ("liquidity", .num 5)]]
    ⟨0, 1, 0⟩
    [.obj [("yes_token_id", .str "y"), ("no_token_id", .str "n"),
        ("liquidity", .num 5)],
     .obj [("yes_token_id", .str ""), ("no_token_id", .str "n")]]
    [.obj [("yes_token_id", .str "y"), ("no_token_id", .str "n"),
        ("liquidity", .num 5)]]
    ⟨0, 1, 0⟩ rfl rfl

/-- C9: filtering is idempotent at a fixed current time: re-filtering the
admitted set re-admits every record unchanged with all three tallies
zero, because admitted records pass through the filter unmodified. -/
theorem filter_markets_idempotent (pISO : String → Option ℤ) (now : ℤ)
    (ms fs : List JVal) (c : SkipCounts)
    (h : filter_markets pISO now ms = .ok (fs, c)) :
    filter_markets pISO now fs = .ok (fs, .zero) := by
  have hall : ∀ m ∈ fs, check_market pISO now m = .ok none := by
    intro m hm
    rcases filterLoop_admitted _ ms [] .zero fs c h m hm with h0 | h0
    · simp at h0
    · exact h0
  have h2 := filterLoop_all_admitted (check_market pISO now) fs [] .zero hall
  simpa [filter_markets] using h2

/-- C9 witness: a two-market batch (one admitted, one closed) whose
admitted set re-filters to itself with zero tallies. -/
theorem filter_markets_idempotent_witness :
    filter_markets (fun _ => none) 0
        [JVal.obj [("yes_token_id", .str "01234567890"),
            ("no_token_id", .str "01234567890"), ("liquidity", .num 5)]] =
      .ok ([JVal.obj [("yes_token_id", .str "01234567890"),
          ("no_token_id", .str "01234567890"), ("liquidity", .num 5)]],
        .zero) :=
  filter_markets_idempotent (fun _ => none) 0
    [.obj [("state", .str "closed")],
     .obj [("yes_token_id", .str "01234567890"),
        ("no_token_id", .str "01234567890"), ("liquidity", .num 5)]]
    [.obj [("yes_token_id", .str "01234567890"),
        ("no_token_id", .str "01234567890"), ("liquidity", .num 5)]]
    ⟨1, 0, 0⟩ rfl

/-- C5: a delimited-pair token field whose first two entries both pass the
validity check is returned as-is, in order, regardless of the tagged-tokens
field; when the pair candidates are discarded (also when only one of the
two is valid — both are then dropped) or the field is absent, extraction
falls back to the tagged-tokens loop, which matches outcome labels
case-insensitively and lets a later valid same-outcome entry override an
earlier assignment. -/
theorem extract_token_ids_priority_and_fallback (loads : String → Option JVal)
    (market : List (String × JVal)) :
    (∀ (y n : JVal) (rest : List JVal),
      normalizeJsonField loads (dictGetD market "clobTokenIds" (.arr [])) =
        .arr (y :: n :: rest) →
      tokenIdValid y = true → tokenIdValid n = true →
      extract_token_ids loads market = .ok (some y, some n)) ∧
    (∀ (y n : JVal) (rest : List JVal),
      tokenIdValid y = false ∨ tokenIdValid n = false →
      clobCandidates (.arr (y :: n :: rest)) = .ok none) ∧
    clobCandidates (.arr []) = .ok none ∧
    (clobCandidates
        (normalizeJsonField loads (dictGetD market "clobTokenIds" (.arr []))) =
        .ok none →
      extract_token_ids loads market =
        (pyIter (normalizeJsonField loads (dictGetD market "tokens" (.arr []))) >>=
          fun elems => elems.foldlM tokenLoopStep (none, none))) ∧
    (∀ (l : List JVal) (st res : Option JVal × Option JVal),
      l.foldlM tokenLoopStep st = .ok res →
      ∀ (o : String) (tid : JVal) (extra : List (String × JVal)),
        tokenIdValid tid = true →
        (pyLower o = "yes" →
          (l ++ [JVal.obj (("outcome", JVal.str o) :: ("token_id", tid) :: extra)]).foldlM
            tokenLoopStep st = .ok (some tid, res.2)) ∧
        (pyLower o = "no" →
          (l ++ [JVal.obj (("outcome", JVal.str o) :: ("token_id", tid) :: extra)]).foldlM
            tokenLoopStep st = .ok (res.1, some tid))) := by
  refine ⟨?_, ?_, rfl, ?_, ?_⟩
  · intro y n rest hclob hy hn
    rw [extract_token_ids, hclob, clobCandidates_pair y n rest hy hn, exceptBind_ok]
    rfl
  · intro y n rest hbad
    rw [clobCandidates]
    have ht : (JVal.arr (y :: n :: rest)).truthy = true := by simp [JVal.truthy]
    rw [if_pos ht]
    have h1 : pyLen (JVal.arr (y :: n :: rest)) = .ok (rest.length + 1 + 1) := rfl
    rw [h1, exceptBind_ok, if_pos (by omega : rest.length + 1 + 1 ≥ 2)]
    have h2 : pyIndex (JVal.arr (y :: n :: rest)) 0 = .ok y := rfl
    have h3 : pyIndex (JVal.arr (y :: n :: rest)) 1 = .ok n := rfl
    rw [h2, exceptBind_ok, h3, exceptBind_ok]
    have hv : (tokenIdValid y && tokenIdValid n) = false := by
      rcases hbad with hb | hb <;> simp [hb]
    rw [hv]
    simp [exceptPure]
  · intro hc
    rw [extract_token_ids, hc, exceptBind_ok]
  · intro l st res h o tid extra hvalid
    have htr : tid.truthy = true := by
      have hv := hvalid
      rw [tokenIdValid, Bool.and_eq_true] at hv
      exact hv.1
    constructor
    · intro ho
      have e1 : dictGetD (("outcome", JVal.str o) :: ("token_id", tid) :: extra)
          "outcome" (.str "") = .str o := rfl
      have e2 : dictGet (("outcome", JVal.str o) :: ("token_id", tid) :: extra)
          "token_id" = tid := rfl
      have hstep : tokenLoopStep res
          (.obj (("outcome", .str o) :: ("token_id", tid) :: extra)) =
          .ok (some tid, res.2) := by
        simp [tokenLoopStep, e1, e2, pyOr, htr, ho, hvalid]
      rw [foldlM_appendE, h, exceptBind_ok, foldlM_consE, hstep, exceptBind_ok]
      rfl
    · intro ho
      have e1 : dictGetD (("outcome", JVal.str o) :: ("token_id", tid) :: extra)
          "outcome" (.str "") = .str o := rfl
      have e2 : dictGet (("outcome", JVal.str o) :: ("token_id", tid) :: extra)
          "token_id" = tid := rfl
      have hstep : tokenLoopStep res
          (.obj (("outcome", .str o) :: ("token_id", tid) :: extra)) =
          .ok (res.1, some tid) := by
        simp [tokenLoopStep, e1, e2, pyOr, htr, ho, hvalid]
      rw [foldlM_appendE, h, exceptBind_ok, foldlM_consE, hstep, exceptBind_ok]
      rfl

/-- C10: every identifier extract_token_ids returns in either position of
an ok result stringifies to strictly more than 10 characters, on the
delimited-pair path (validated before the early return) and on the
tagged-tokens fallback path (validated before each assignment) alike. -/
theorem extract_token_ids_length_invariant (loads : String → Option JVal)
    (market : List (String × JVal)) (y n : Option JVal)
    (h : extract_token_ids loads market = .ok (y, n)) :
    (∀ v, y = some v → 10 < pyStrLen v) ∧ (∀ v, n = some v → 10 < pyStrLen v) := by
  rw [extract_token_ids] at h
  cases hc : clobCandidates
      (normalizeJsonField loads (dictGetD market "clobTokenIds" (.arr []))) with
  | error e => rw [hc, exceptBind_error] at h; exact Except.noConfusion h
  | ok cand =>
      rw [hc] at h
      simp only [exceptBind_ok] at h
      cases cand with
      | some p =>
          obtain ⟨yv, nv⟩ := p
          replace h := show (Except.ok (some yv, some nv) :
              Except PyErr (Option JVal × Option JVal)) = Except.ok (y, n) from h
          obtain ⟨rfl, rfl⟩ := Prod.mk.inj (Except.ok.inj h)
          obtain ⟨hy, hn⟩ := clobCandidates_some _ yv nv hc
          rw [tokenIdValid, Bool.and_eq_true] at hy hn
          constructor
          · intro v hv
            obtain rfl := Option.some.inj hv
            exact of_decide_eq_true hy.2
          · intro v hv
            obtain rfl := Option.some.inj hv
            exact of_decide_eq_true hn.2
      | none =>
          replace h := show
              (pyIter (normalizeJsonField loads (dictGetD market "tokens" (.arr []))) >>=
                fun elems => elems.foldlM tokenLoopStep (none, none)) =
              Except.ok (y, n) from h
          cases hi : pyIter
              (normalizeJsonField loads (dictGetD market "tokens" (.arr []))) with
          | error e => rw [hi, exceptBind_error] at h; exact Except.noConfusion h
          | ok elems =>
              rw [hi, exceptBind_ok] at h
              exact tokenLoop_inv elems (none, none) (y, n) h
                ⟨fun v hv => absurd hv (by simp), fun v hv => absurd hv (by simp)⟩

/-- C10 witness: a market whose tagged-tokens field assigns an
11-character YES id and leaves NO unassigned. -/
theorem extract_token_ids_length_invariant_witness :
    (∀ v, some (JVal.str "AAAAAAAAAAA") = some v → 10 < pyStrLen v) ∧
    (∀ v, (none : Option JVal) = some v → 10 < pyStrLen v) :=
  extract_token_ids_length_invariant (fun _ => none)
    [("tokens", .arr [.obj [("outcome", .str "Yes"), ("token_id", .str "AAAAAAAAAAA")]])]
    (some (.str "AAAAAAAAAAA")) none rfl

/-- C7: live-price ingestion is idempotent on the (market identifier,
timestamp) pair: the store only ever grows (no row is updated or
removed); a snapshot whose pair already has a row is skipped and counted
as the one duplicate; and re-running the same batch against the post-run
store inserts zero rows, leaves the store unchanged, and counts every
valid snapshot as a duplicate. -/
theorem ingest_live_prices_idempotent (data : List (List (String × JVal)))
    (s : List LiveRow) (p : List (String × JVal)) :
    (∃ t, (ingest_live_prices data s).1 = s ++ t) ∧
    (validLive p = true →
      liveKeyExists s (dictGet p "market_id") (dictGet p "timestamp") = true →
      ingest_live_prices [p] s = (s, 0, 1)) ∧
    ingest_live_prices data ((ingest_live_prices data s).1) =
      ((ingest_live_prices data s).1, 0, data.countP (fun q => validLive q)) := by
  refine ⟨ingestLiveLoop_grows data s 0 0, ?_, ?_⟩
  · intro hv hk
    rw [ingest_live_prices, ingestLiveLoop]
    rw [validLive, Bool.and_eq_true] at hv
    rw [if_neg (by simp [hv.1, hv.2]), if_pos hk]
    rfl
  · rw [ingest_live_prices]
    have h := ingestLiveLoop_noop data (ingest_live_prices data s).1 0 0
      (fun q hq hqv => ingestLiveLoop_keys_present data s 0 0 q hq hqv)
    simpa using h

/-- C6: in every successfully parsed order book the `mid_price` and
`spread` are non-null exactly when both bests are, in which case they are
the arithmetic mean and the difference; a `None` book, and a book without
`bids` and `asks` keys, yield all four fields null without error. -/
theorem parse_orderbook_mid_spread_nullability (book : JVal)
    (r : OrderbookSummary) (h : parse_orderbook book = .ok r) :
    (r.mid_price ≠ none ↔ r.best_bid ≠ none ∧ r.best_ask ≠ none) ∧
    (r.spread ≠ none ↔ r.best_bid ≠ none ∧ r.best_ask ≠ none) ∧
    (∀ b a : ℚ, r.best_bid = some b → r.best_ask = some a →
        r.mid_price = some ((b + a) / 2) ∧ r.spread = some (a - b)) ∧
    parse_orderbook .null = .ok ⟨none, none, none, none⟩ ∧
    (∀ kvs : List (String × JVal), kvs.lookup "bids" = none →
        kvs.lookup "asks" = none →
        parse_orderbook (.obj kvs) = .ok ⟨none, none, none, none⟩) := by
  refine ⟨?_, ?_, ?_, rfl, ?_⟩
  · rcases parse_orderbook_shape book r h with hr | ⟨bb, ba, hr⟩
    · subst hr; simp
    · subst hr; cases bb <;> cases ba <;> simp [mkSummary]
  · rcases parse_orderbook_shape book r h with hr | ⟨bb, ba, hr⟩
    · subst hr; simp
    · subst hr; cases bb <;> cases ba <;> simp [mkSummary]
  · rcases parse_orderbook_shape book r h with hr | ⟨bb, ba, hr⟩
    · subst hr; simp
    · subst hr; cases bb <;> cases ba <;> simp [mkSummary]
  · intro kvs hb ha
    cases kvs with
    | nil => rfl
    | cons kv rest =>
        have ht : (JVal.obj (kv :: rest)).truthy = true := by simp [JVal.truthy]
        simp only [parse_orderbook, ht, Bool.not_true, Bool.false_eq_true, if_false]
        rw [show dictGetD (kv :: rest) "bids" (.arr []) = .arr [] from by
          simp [dictGetD, hb]]
        rw [show dictGetD (kv :: rest) "asks" (.arr []) = .arr [] from by
          simp [dictGetD, ha]]
        rfl

/-- C6 witness: a two-sided book whose summary has all four fields. -/
theorem parse_orderbook_mid_spread_nullability_witness :
    ((⟨some (2/5), some (3/5), some ((2/5 + 3/5)/2), some (3/5 - 2/5)⟩ :
        OrderbookSummary).mid_price ≠ none ↔
      (⟨some (2/5), some (3/5), some ((2/5 + 3/5)/2), some (3/5 - 2/5)⟩ :
        OrderbookSummary).best_bid ≠ none ∧
      (⟨some (2/5), some (3/5), some ((2/5 + 3/5)/2), some (3/5 - 2/5)⟩ :
        OrderbookSummary).best_ask ≠ none) ∧
    ((⟨some (2/5), some (3/5), some ((2/5 + 3/5)/2), some (3/5 - 2/5)⟩ :
        OrderbookSummary).spread ≠ none ↔
      (⟨some (2/5), some (3/5), some ((2/5 + 3/5)/2), some (3/5 - 2/5)⟩ :
        OrderbookSummary).best_bid ≠ none ∧
      (⟨some (2/5), some (3/5), some ((2/5 + 3/5)/2), some (3/5 - 2/5)⟩ :
        OrderbookSummary).best_ask ≠ none) ∧
    (∀ b a : ℚ,
      (⟨some (2/5), some (3/5), some ((2/5 + 3/5)/2), some (3/5 - 2/5)⟩ :
        OrderbookSummary).best_bid = some b →
      (⟨some (2/5), some (3/5), some ((2/5 + 3/5)/2), some (3/5 - 2/5)⟩ :
        OrderbookSummary).best_ask = some a →
      (⟨some (2/5), some (3/5), some ((2/5 + 3/5)/2), some (3/5 - 2/5)⟩ :
        OrderbookSummary).mid_price = some ((b + a) / 2) ∧
      (⟨some (2/5), some (3/5), some ((2/5 + 3/5)/2), some (3/5 - 2/5)⟩ :
        OrderbookSummary).spread = some (a - b)) ∧
    parse_orderbook .null = .ok ⟨none, none, none, none⟩ ∧
    (∀ kvs : List (String × JVal), kvs.lookup "bids" = none →
        kvs.lookup "asks" = none →
        parse_orderbook (.obj kvs) = .ok ⟨none, none, none, none⟩) :=
  parse_orderbook_mid_spread_nullability
    (.obj [("bids", .arr [.obj [("price", .num (2/5))]]),
           ("asks", .arr [.obj [("price", .num (3/5))]])])
    ⟨some (2/5), some (3/5), some ((2/5 + 3/5)/2), some (3/5 - 2/5)⟩ rfl

/-- C8: historical-price ingestion drops a point with a missing or `None`
epoch or price silently (no error, no state change, no tally); it inserts
a point only when its (market identifier, side, instant) triple has no row
yet, counting duplicates as skipped; a successful run only appends rows
whose triples were absent from the starting store, with the inserted count
equal to the number of appended rows; and re-ingesting the same payload
over the resulting store inserts zero new rows. -/
theorem ingest_historical_prices_dedup (data : List (String × JVal))
    (s : List HistRow) (st : HistSt) :
    (∀ (mid : String) (q y n : JVal) (side : String) (st0 : HistSt)
        (kvs : List (String × JVal)),
      dictGet kvs "t" = .null ∨ dictGet kvs "p" = .null →
      histPointStep mid q y n side st0 (.obj kvs) = .ok st0) ∧
    (∀ (mid : String) (q y n : JVal) (side : String) (st0 : HistSt) (pt : JVal),
      validHistPoint pt = true →
      histKeyExists st0.store mid side (pointEpoch pt) = true →
      histPointStep mid q y n side st0 pt = .ok ⟨st0.store, st0.ins, st0.skip + 1⟩) ∧
    (ingest_historical_prices data s = .ok st →
      (∃ u, st.store = s ++ u ∧ st.ins = u.length ∧
        ∀ r ∈ u, histKeyExists s r.market_id r.side r.timestamp = false) ∧
      ∃ k, ingest_historical_prices data st.store = .ok ⟨st.store, 0, k⟩) := by
  refine ⟨?_, histPointStep_dup, ?_⟩
  · intro mid q y n side st0 kvs hnull
    have hg : (beqVal (dictGet kvs "t") .null || beqVal (dictGet kvs "p") .null) = true := by
      rcases hnull with h | h <;> rw [h] <;> simp [beqVal]
    rw [histPointStep, if_pos hg]
  · intro h
    rw [ingest_historical_prices] at h
    constructor
    · obtain ⟨u, hu, hi, hn⟩ := histIngest_grows data ⟨s, 0, 0⟩ st h
      exact ⟨u, hu, by simpa using hi, hn⟩
    · have hproc := histIngest_processable data ⟨s, 0, 0⟩ st h
      have hkeys := histIngest_keys data ⟨s, 0, 0⟩ st h
      obtain ⟨k, hk⟩ := histIngest_noop data ⟨st.store, 0, 0⟩ hproc hkeys
      exact ⟨k, hk⟩

end PolyEdge
